import Mathlib

/-!
# Verification of the 858-random-spread-layout placement engine and compositor

This file embeds the core geometry of the spread-layout application in Lean:
the rectangle kernel (`intersectRect`, `rectsOverlapWithMargin`), the cover-fit
export compositor (`App.cropOpsForBoard` and the two variant compositors
`P3.cropOpsForBoard`, `P2.coverSourceRect`), the normalizing pipeline
(`App.normalizeImages`), the random-scatter placement (`App.randomiseLayout`,
`P1.tryPlace`), the greedy bin-pack (`App.packLayout`), the column masonry
(`App.editorialSeamless`) and the bounds-fix pass (`P3.clampToBoards`).

JavaScript numbers are modelled by `ℚ` (exact arithmetic standing in for IEEE
doubles), `Math.floor` by `Int.floor`, `Math.random()` draws by an explicit
stream `ℕ → ℚ` of values in `[0, 1)`.  Items always carry numeric geometry; a
missing/empty id is modelled by the empty string (matching JS falsiness), and a
not-yet-decoded image element by `Option ImgEl`.
-/

/-- Board/spread configuration: `boards` boards of size `W × H` laid
edge-to-edge, with a minimum gap `spacing` between placed items.
Board dimensions are integers (the UI clamps integer inputs). -/
structure Config where
  boards : ℕ
  W : ℤ
  H : ℤ
  spacing : ℚ
deriving DecidableEq

/-- A decoded source image: its natural pixel dimensions
(`img.naturalWidth`, `img.naturalHeight`). -/
structure ImgEl where
  naturalWidth : ℚ
  naturalHeight : ℚ
deriving DecidableEq

/-- A placed item: frame rectangle `(x, y, w, h)` in spread space, a stable id
(empty string modelling a missing/falsy id), and the optional decoded image
element (`_imageEl` in the source). -/
structure Img where
  id : String
  x : ℚ
  y : ℚ
  w : ℚ
  h : ℚ
  imageEl : Option ImgEl := none
deriving DecidableEq

/-- A plain rectangle, as returned by `intersectRect`. -/
structure Rect where
  x : ℚ
  y : ℚ
  w : ℚ
  h : ℚ
deriving DecidableEq

/-- `intersectRect(ax, ay, aw, ah, bx, by, bw, bh)`: overlapping rectangle of
two axis-aligned rectangles, `none` when width or height of the overlap is
not strictly positive (edge-touching counts as no overlap). -/
def intersectRect (ax ay aw ah cx cy cw ch : ℚ) : Option Rect :=
  let x1 := max ax cx
  let y1 := max ay cy
  let x2 := min (ax + aw) (cx + cw)
  let y2 := min (ay + ah) (cy + ch)
  let w := x2 - x1
  let h := y2 - y1
  if w ≤ 0 ∨ h ≤ 0 then none else some ⟨x1, y1, w, h⟩

/-- `rectsOverlapWithMargin(a, b, margin)`: true unless the two frames are
separated on some axis by at least `margin`.  This predicate appears verbatim
in every variant of the app (`rectsOverlapWithMargin`, `overlapWith`). -/
def rectsOverlapWithMargin (a b : Img) (margin : ℚ) : Bool :=
  !(decide (a.x + a.w + margin ≤ b.x) || decide (b.x + b.w + margin ≤ a.x) ||
    decide (a.y + a.h + margin ≤ b.y) || decide (b.y + b.h + margin ≤ a.y))

/-- A stream of `Math.random()` draws, each expected in `[0, 1)`. -/
abbrev RandStream := ℕ → ℚ

/-- `rng(min, max) = min + Math.random() * (max - min)` applied to one draw
`r` from the stream. -/
def rng (r lo hi : ℚ) : ℚ := lo + r * (hi - lo)

/-- `placed.some((p) => rectsOverlapWithMargin(c, p, spacing))`: the candidate
overlaps some already-placed item at the given margin. -/
def overlapsAny (placed : List Img) (c : Img) (margin : ℚ) : Bool :=
  placed.any (fun p => rectsOverlapWithMargin c p margin)

namespace App

/-- `clamp(v, a, b) = Math.max(a, Math.min(b, v))` (App.jsx form). -/
def clamp (v a b : ℚ) : ℚ := max a (min b v)

/-- Integer form of `clamp`, used for the board-index clamp. -/
def clampZ (v a b : ℤ) : ℤ := max a (min b v)

/-- One crop operation of the App.jsx compositor:
source rectangle `(sx, sy, sw, sh)` in natural pixels, destination rectangle
`(dx, dy, dw, dh)` in board-local coordinates. -/
structure CropOp where
  img : ImgEl
  sx : ℚ
  sy : ℚ
  sw : ℚ
  sh : ℚ
  dx : ℚ
  dy : ℚ
  dw : ℚ
  dh : ℚ
deriving DecidableEq

/-- The cover-fit scale `Math.max(n.w / iw, n.h / ih)` of an item over a
decoded image. -/
def itemScale (n : Img) (img : ImgEl) : ℚ :=
  max (n.w / img.naturalWidth) (n.h / img.naturalHeight)

/-- Body of the `for (const n of images)` loop of App.jsx `cropOpsForBoard`:
the crop operation an item contributes to board `boardIndex`, or `none`
(the `continue` branches: unknown natural size, or no intersection of the
cover-scaled render footprint with the board). -/
def cropOpForItem (cfg : Config) (boardIndex : ℕ) (n : Img) : Option CropOp :=
  let boardX : ℚ := (boardIndex : ℚ) * (cfg.W : ℚ)
  match n.imageEl with
  | none => none
  | some img =>
    if img.naturalWidth = 0 ∨ img.naturalHeight = 0 then none else
    let iw := img.naturalWidth
    let ih := img.naturalHeight
    let scale := max (n.w / iw) (n.h / ih)
    let renderW := iw * scale
    let renderH := ih * scale
    let ox := n.x + (n.w - renderW) / 2
    let oy := n.y + (n.h - renderH) / 2
    (intersectRect ox oy renderW renderH boardX 0 (cfg.W : ℚ) (cfg.H : ℚ)).map fun inter =>
      let sx := max 0 (min iw ((inter.x - ox) / scale))
      let sy := max 0 (min ih ((inter.y - oy) / scale))
      let sw := max 0 (min (iw - sx) (inter.w / scale))
      let sh := max 0 (min (ih - sy) (inter.h / scale))
      { img := img, sx := sx, sy := sy, sw := sw, sh := sh,
        dx := inter.x - boardX, dy := inter.y, dw := inter.w, dh := inter.h }

/-- App.jsx `cropOpsForBoard(images, boardIndex, BOARD_W, BOARD_H)`. -/
def cropOpsForBoard (cfg : Config) (images : List Img) (boardIndex : ℕ) : List CropOp :=
  images.filterMap (cropOpForItem cfg boardIndex)

/-- The item has a decoded image with nonzero natural dimensions
(the truthiness test `img && img.naturalWidth && img.naturalHeight`). -/
def knownSize (n : Img) : Bool :=
  match n.imageEl with
  | none => false
  | some img => decide (img.naturalWidth ≠ 0) && decide (img.naturalHeight ≠ 0)

/-- The de-dupe pass of `normalizeImages`: drop items with a falsy id
(modelled by `""`) and later repeats of an id already seen, keeping first
occurrences. -/
def dedupeById : List Img → List String → List Img
  | [], _ => []
  | n :: rest, seen =>
    if n.id = "" then dedupeById rest seen
    else if n.id ∈ seen then dedupeById rest seen
    else n :: dedupeById rest (n.id :: seen)

/-- `clamp(Math.floor(x / BOARD_W), 0, boards - 1)`: the board index a
spread-space `x` belongs to. -/
def boardIdxOf (cfg : Config) (x : ℚ) : ℤ :=
  clampZ ⌊x / (cfg.W : ℚ)⌋ 0 ((cfg.boards : ℤ) - 1)

/-- The per-item clamp of `normalizeImages`: width/height floored at 20 and
capped at the spread size, `x` clamped into the board implied by
`Math.floor(x / BOARD_W)` (itself clamped to a valid index), `y` clamped into
the board height. -/
def clampItem (cfg : Config) (n : Img) : Img :=
  let spreadW : ℚ := (cfg.boards : ℚ) * (cfg.W : ℚ)
  let spreadH : ℚ := (cfg.H : ℚ)
  let w := clamp n.w 20 spreadW
  let h := clamp n.h 20 spreadH
  let boardIdx : ℤ := boardIdxOf cfg n.x
  let boardStart : ℚ := (boardIdx : ℚ) * (cfg.W : ℚ)
  let boardEnd : ℚ := boardStart + (cfg.W : ℚ)
  { n with x := clamp n.x boardStart (boardEnd - w),
           y := clamp n.y 0 ((cfg.H : ℚ) - h),
           w := w, h := h }

/-- App.jsx `normalizeImages`: the normalizing pipe every `setImages` update
passes through (de-dupe by id, then clamp each item to its board). -/
def normalizeImages (cfg : Config) (arr : List Img) : List Img :=
  (dedupeById arr []).map (clampItem cfg)

/-- The candidate rectangle tried at attempt `t` of App.jsx `attemptPlace`,
reading three `Math.random()` draws from stream positions `k+3t`, `k+3t+1`,
`k+3t+2`: board index, x, y. -/
def candAt (cfg : Config) (s : RandStream) (k : ℕ) (node : Img) (t : ℕ) : Img :=
  let boardIdx : ℤ := ⌊s (k + 3 * t) * (cfg.boards : ℚ)⌋
  let boardStart : ℚ := (boardIdx : ℚ) * (cfg.W : ℚ)
  let boardEnd : ℚ := boardStart + (cfg.W : ℚ)
  let x : ℤ := ⌊rng (s (k + 3 * t + 1)) boardStart (boardEnd - node.w)⌋
  let y : ℤ := ⌊rng (s (k + 3 * t + 2)) 0 ((cfg.H : ℚ) - node.h)⌋
  { node with x := (x : ℚ), y := (y : ℚ) }

/-- `maxTries = 400` of App.jsx `attemptPlace`. -/
def maxTries : ℕ := 400

/-- The `for (let t = 0; t < maxTries; t++)` loop of `attemptPlace`:
accept the first candidate that does not overlap any placed item, returning
it together with the next unused stream position. -/
def randLoop (cfg : Config) (s : RandStream) (k : ℕ) (placed : List Img) (node : Img) :
    ℕ → ℕ → Option (Img × ℕ)
  | _, 0 => none
  | t, fuel + 1 =>
    let c := candAt cfg s k node t
    if overlapsAny placed c cfg.spacing then randLoop cfg s k placed node (t + 1) fuel
    else some (c, k + 3 * (t + 1))

/-- The random phase of `attemptPlace`: up to `maxTries` candidates. -/
def randPhase (cfg : Config) (s : RandStream) (k : ℕ) (placed : List Img) (node : Img) :
    Option (Img × ℕ) :=
  randLoop cfg s k placed node 0 maxTries

/-- The scan step `Math.max(8, spacing)` shared by the grid fallback of
`attemptPlace` and by `packLayout`. -/
def step (cfg : Config) : ℚ := max 8 cfg.spacing

/-- The `y` values visited by `for (let y = 0; y <= BOARD_H - h; y += step)`. -/
def gridYs (cfg : Config) (h : ℚ) : List ℚ :=
  if h ≤ (cfg.H : ℚ) then
    (List.range (⌊((cfg.H : ℚ) - h) / step cfg⌋₊ + 1)).map (fun j => (j : ℚ) * step cfg)
  else []

/-- The `x` values visited inside board `b` by
`for (let x = boardStart; x <= boardStart + BOARD_W - w; x += step)`. -/
def gridXs (cfg : Config) (b : ℕ) (w : ℚ) : List ℚ :=
  let boardStart : ℚ := (b : ℚ) * (cfg.W : ℚ)
  if w ≤ (cfg.W : ℚ) then
    (List.range (⌊((cfg.W : ℚ) - w) / step cfg⌋₊ + 1)).map
      (fun j => boardStart + (j : ℚ) * step cfg)
  else []

/-- All candidate positions of the deterministic scan, in visit order:
boards in order, rows top-to-bottom, columns left-to-right. -/
def gridCands (cfg : Config) (node : Img) : List Img :=
  (List.range cfg.boards).flatMap fun b =>
    (gridYs cfg node.h).flatMap fun y =>
      (gridXs cfg b node.w).map fun x => { node with x := x, y := y }

/-- The deterministic scan: the first grid candidate that does not overlap
any placed item. -/
def gridScan (cfg : Config) (placed : List Img) (node : Img) : Option Img :=
  (gridCands cfg node).find? (fun c => !(overlapsAny placed c cfg.spacing))

/-- App.jsx `attemptPlace`, with the shared mutable `placed` array and the
`Math.random()` position threaded explicitly.  Returns the placement, the
updated accumulator and the next stream position.  When both the random phase
and the grid scan fail, `placed[placed.length - 1] || node` is returned and
nothing is pushed. -/
def attemptPlace (cfg : Config) (s : RandStream) (k : ℕ) (placed : List Img) (node : Img) :
    Img × List Img × ℕ :=
  match randPhase cfg s k placed node with
  | some (c, next) => (c, placed ++ [c], next)
  | none =>
    match gridScan cfg placed node with
    | some c => (c, placed ++ [c], k + 3 * maxTries)
    | none => ((placed.getLast?).getD node, placed, k + 3 * maxTries)

/-- `prev.map((n) => attemptPlace(n))` with the shared accumulator explicit. -/
def randomiseGo (cfg : Config) (s : RandStream) : ℕ → List Img → List Img → List Img
  | _, _, [] => []
  | k, placed, n :: rest =>
    let r := attemptPlace cfg s k placed n
    r.1 :: randomiseGo cfg s r.2.2 r.2.1 rest

/-- App.jsx `randomiseLayout` (the Randomise button / key `R`). -/
def randomiseLayout (cfg : Config) (s : RandStream) (imgs : List Img) : List Img :=
  randomiseGo cfg s 0 [] imgs

/-- Stable insertion modelling `sort((a, b) => b.w*b.h - a.w*a.h)`:
descending by area, later items placed after equal-area earlier ones. -/
def insertByAreaDesc (x : Img) : List Img → List Img
  | [] => [x]
  | y :: ys => if x.w * x.h ≤ y.w * y.h then y :: insertByAreaDesc x ys else x :: y :: ys

/-- The area-descending stable sort of `packLayout`. -/
def sortByAreaDesc (l : List Img) : List Img :=
  l.foldl (fun acc x => insertByAreaDesc x acc) []

/-- One `scan` call of `packLayout`: first free grid position, else the item
kept unchanged. -/
def packStep (cfg : Config) (placed : List Img) (n : Img) : Img :=
  (gridScan cfg placed n).getD n

/-- `sorted.map(scan)` with the `placed` accumulator explicit (in the source
`scan` pushes exactly the rectangle it returns). -/
def packRun (cfg : Config) : List Img → List Img → List Img
  | _, [] => []
  | placed, n :: rest =>
    let c := packStep cfg placed n
    c :: packRun cfg (placed ++ [c]) rest

/-- App.jsx `packLayout` (the Pack button / key `P`). -/
def packLayout (cfg : Config) (l : List Img) : List Img :=
  packRun cfg [] (sortByAreaDesc l)

/-- `columnsPerBoard = Math.max(2, Math.floor(BOARD_W / (BOARD_W * 0.9)))`. -/
def seamlessCols (cfg : Config) : ℕ :=
  max 2 (⌊(cfg.W : ℚ) / ((cfg.W : ℚ) * 0.9)⌋.toNat)

/-- `colW = BOARD_W / columnsPerBoard` of `editorialSeamless`. -/
def seamlessColW (cfg : Config) : ℚ := (cfg.W : ℚ) / (seamlessCols cfg : ℚ)

/-- The `(board, column)` pairs in the order the nested `for` loops visit
them. -/
def colPairs (cfg : Config) : List (ℕ × ℕ) :=
  (List.range cfg.boards).flatMap fun b =>
    (List.range (seamlessCols cfg)).map fun c => (b, c)

/-- Fold of the strict-minimum scan `if (yTrack[b][c] < bestY) ...`: the
first pair with the strictly smallest track value wins. -/
def argminTrack (track : ℕ → ℕ → ℚ) : List (ℕ × ℕ) → ℕ × ℕ → ℕ × ℕ
  | [], best => best
  | p :: rest, best =>
    argminTrack track rest (if track p.1 p.2 < track best.1 best.2 then p else best)

/-- The `(bestB, bestC)` scan of `editorialSeamless`: the strict minimum over
all `(board, column)` pairs, seeded with the first pair (`bestY` starts at
infinity, so the first pair always replaces it). -/
def seamlessBest (cfg : Config) (track : ℕ → ℕ → ℚ) : ℕ × ℕ :=
  argminTrack track (colPairs cfg).tail ((colPairs cfg).headD (0, 0))

/-- One item of `editorialSeamless`: pick the (board, column) with the
smallest running height, place at the floored track position, advance that
track by `h + gutter` (gutter 0).  `u` is this item's `rng(0.6, 0.75)` draw. -/
def seamlessStep (cfg : Config) (track : ℕ → ℕ → ℚ) (u : ℚ) (n : Img) :
    (Img × ℕ × ℕ) × (ℕ → ℕ → ℚ) :=
  let gutter : ℚ := 0
  let best : ℕ × ℕ := seamlessBest cfg track
  let b := best.1
  let c := best.2
  let boardStart : ℚ := (b : ℚ) * (cfg.W : ℚ)
  let w := seamlessColW cfg
  let h := max 120 (w * rng u 0.6 0.75)
  let x : ℤ := ⌊boardStart + (c : ℚ) * (seamlessColW cfg + gutter)⌋
  let y : ℤ := ⌊track b c⌋
  (({ n with x := (x : ℚ), y := (y : ℚ), w := w, h := h }, b, c),
   fun b2 c2 => if b2 = b ∧ c2 = c then track b c + (h + gutter) else track b2 c2)

/-- The fold of `editorialSeamless` over the item list, also recording which
(board, column) each item was assigned to. -/
def seamlessRun (cfg : Config) (s : RandStream) :
    ℕ → (ℕ → ℕ → ℚ) → List Img → List (Img × ℕ × ℕ)
  | _, _, [] => []
  | k, track, n :: rest =>
    let st := seamlessStep cfg track (s k) n
    st.1 :: seamlessRun cfg s (k + 1) st.2 rest

/-- App.jsx `editorialSeamless`: the gutter-0 column masonry. -/
def editorialSeamless (cfg : Config) (s : RandStream) (l : List Img) : List Img :=
  (seamlessRun cfg s 0 (fun _ _ => 0) l).map (fun e => e.1)

/-- Sum of the heights of the run entries assigned to column `bc` — the
running-height bookkeeping `editorialSeamless` keeps in `yTrack`. -/
def colHeightSum (run : List (Img × ℕ × ℕ)) (bc : ℕ × ℕ) : ℚ :=
  ((run.filter (fun e => e.2 = bc)).map (fun e => e.1.h)).sum

end App

namespace P1

/-- The options record of part_001 `randomise` (default
`{ spreadVertical: true, acrossBoards: true }`). -/
structure Opts where
  spreadVertical : Bool := true
  acrossBoards : Bool := true
deriving DecidableEq

/-- Board index of try `t` in part_001 `tryPlace`: round-robin from
`nextBoard` in `acrossBoards` mode, otherwise drawn from the stream at
`idx`. -/
def tryBoardIndex (cfg : Config) (s : RandStream) (opts : Opts) (nextBoard : ℕ)
    (t idx : ℕ) : ℕ :=
  if opts.acrossBoards then (nextBoard + t) % cfg.boards
  else (⌊s idx * (cfg.boards : ℚ)⌋).toNat

/-- Stream draws consumed by one try of part_001 `tryPlace`. -/
def tryConsume (opts : Opts) : ℕ := if opts.acrossBoards then 2 else 3

/-- Candidate of try `t` in part_001 `tryPlace` (`idx` is this try's first
stream position; the board draw, when present, comes first). -/
def tryCand (cfg : Config) (s : RandStream) (opts : Opts) (nextBoard : ℕ) (node : Img)
    (w h : ℚ) (t idx : ℕ) : Img :=
  let boardIndex := tryBoardIndex cfg s opts nextBoard t idx
  let idx2 := if opts.acrossBoards then idx else idx + 1
  let bx : ℚ := (boardIndex : ℚ) * (cfg.W : ℚ)
  let x : ℤ := ⌊bx + s idx2 * ((cfg.W : ℚ) - w)⌋
  let y : ℤ :=
    if opts.spreadVertical then ⌊s (idx2 + 1) * max 1 ((cfg.H : ℚ) - h)⌋
    else ⌊((cfg.H : ℚ) - h) * s (idx2 + 1) * 0.6⌋
  { node with x := (x : ℚ), y := (y : ℚ), w := w, h := h }

/-- `maxTries = 400` of part_001 `tryPlace`. -/
def maxTries : ℕ := 400

/-- The per-item width draw of part_001 `tryPlace`:
`Math.floor(minW + Math.random() * (maxW - minW))` with `minW = boardW·0.25`,
`maxW = boardW·0.65`. -/
def drawW (cfg : Config) (s : RandStream) (k : ℕ) : ℚ :=
  ((⌊(cfg.W : ℚ) * 0.25 + s k * ((cfg.W : ℚ) * 0.65 - (cfg.W : ℚ) * 0.25)⌋ : ℤ) : ℚ)

/-- The per-item height draw of part_001 `tryPlace`:
`Math.floor(w * (0.6 + Math.random() * 0.4))`. -/
def drawH (cfg : Config) (s : RandStream) (k : ℕ) : ℚ :=
  ((⌊drawW cfg s k * (0.6 + s (k + 1) * 0.4)⌋ : ℤ) : ℚ)

/-- The try loop of part_001 `tryPlace`: first non-overlapping candidate,
with the board index it used and the next stream position. -/
def tryLoop (cfg : Config) (s : RandStream) (opts : Opts) (nextBoard : ℕ)
    (placed : List Img) (node : Img) (w h : ℚ) :
    ℕ → ℕ → ℕ → Option (Img × ℕ × ℕ)
  | _, _, 0 => none
  | t, idx, fuel + 1 =>
    let c := tryCand cfg s opts nextBoard node w h t idx
    if overlapsAny placed c cfg.spacing then
      tryLoop cfg s opts nextBoard placed node w h (t + 1) (idx + tryConsume opts) fuel
    else some (c, tryBoardIndex cfg s opts nextBoard t idx, idx + tryConsume opts)

/-- part_001 `tryPlace`: re-draw a size, try up to `maxTries` random
candidates, else clamp into the round-robin board `nextBoard` at the fixed
near-origin offset `(bx + 2, 2)` with no overlap check.  Returns
`(result, new nextBoard, new placed, next stream position)`. -/
def tryPlace (cfg : Config) (s : RandStream) (opts : Opts) (k : ℕ) (nextBoard : ℕ)
    (placed : List Img) (node : Img) : Img × ℕ × List Img × ℕ :=
  let maxW : ℚ := (cfg.W : ℚ) * 0.65
  let w : ℚ := drawW cfg s k
  let h : ℚ := drawH cfg s k
  match tryLoop cfg s opts nextBoard placed node w h 0 (k + 2) maxTries with
  | some (c, bi, idx) => (c, (bi + 1) % cfg.boards, placed ++ [c], idx)
  | none =>
    let bx : ℚ := (nextBoard : ℚ) * (cfg.W : ℚ)
    let c := { node with
               x := bx + 2, y := 2,
               w := min maxW ((cfg.W : ℚ) - cfg.spacing * 2),
               h := min ((⌊maxW * 0.75⌋ : ℤ) : ℚ) ((cfg.H : ℚ) - cfg.spacing * 2) }
    (c, (nextBoard + 1) % cfg.boards, placed ++ [c], k + 2 + tryConsume opts * maxTries)

end P1

namespace P3

/-- part_003 `clamp(v, min, max) = Math.min(Math.max(v, min), max)`. -/
def clamp (v lo hi : ℚ) : ℚ := min (max v lo) hi

/-- A crop operation of the part_003 compositor.  Source coordinates are in
placed (frame) units; `img` is the raw `_imageEl` reference, possibly absent. -/
structure CropOp where
  img : Option ImgEl
  sx : ℚ
  sy : ℚ
  sw : ℚ
  sh : ℚ
  dx : ℚ
  dy : ℚ
  dw : ℚ
  dh : ℚ
  placedW : ℚ
  placedH : ℚ
deriving DecidableEq

/-- Body of the part_003 `cropOpsForBoard` loop: intersects the item frame
itself with the board and emits an op regardless of whether the image has
decoded. -/
def cropOpForItem (cfg : Config) (boardIndex : ℕ) (n : Img) : Option CropOp :=
  let boardX : ℚ := (boardIndex : ℚ) * (cfg.W : ℚ)
  (intersectRect n.x n.y n.w n.h boardX 0 (cfg.W : ℚ) (cfg.H : ℚ)).map fun inter =>
    { img := n.imageEl,
      sx := inter.x - n.x, sy := inter.y - n.y, sw := inter.w, sh := inter.h,
      dx := inter.x - boardX, dy := inter.y, dw := inter.w, dh := inter.h,
      placedW := n.w, placedH := n.h }

/-- part_003 `cropOpsForBoard(images, boardIndex, boardW, boardH)`. -/
def cropOpsForBoard (cfg : Config) (images : List Img) (boardIndex : ℕ) : List CropOp :=
  images.filterMap (cropOpForItem cfg boardIndex)

/-- The part_003 export loop skips ops whose image reference is falsy
(`if (!op.img) continue`); these are the ops it actually draws. -/
def drawnOps (cfg : Config) (images : List Img) (boardIndex : ℕ) : List CropOp :=
  (cropOpsForBoard cfg images boardIndex).filter (fun op => op.img.isSome)

/-- part_003 `clampToBoards(n, boardW, boardH, boards, spacing)`: clamps an
item into the board slice implied by `Math.floor(n.x / boardW)`. -/
def clampToBoards (cfg : Config) (n : Img) : Img :=
  let bx : ℤ := ⌊n.x / (cfg.W : ℚ)⌋
  let left : ℚ := (bx : ℚ) * (cfg.W : ℚ) + cfg.spacing
  let right : ℚ := ((bx : ℚ) + 1) * (cfg.W : ℚ) - cfg.spacing - n.w
  { n with x := clamp n.x left right,
           y := clamp n.y cfg.spacing ((cfg.H : ℚ) - cfg.spacing - n.h) }

end P3

namespace P2

/-- part_002 `coverSourceRect(imgW, imgH, nodeW, nodeH, nx, ny, nw, nh)`:
maps a frame-local rectangle back to natural source pixels through the
cover-fit scale, clamping into the image bounds.  Returns `(sx, sy, sw, sh)`. -/
def coverSourceRect (imgW imgH nodeW nodeH nx ny nw nh : ℚ) : ℚ × ℚ × ℚ × ℚ :=
  let scale := max (nodeW / imgW) (nodeH / imgH)
  let rw := imgW * scale
  let rh := imgH * scale
  let offsetX := (rw - nodeW) / 2
  let offsetY := (rh - nodeH) / 2
  let sx := (nx - offsetX) / scale
  let sy := (ny - offsetY) / scale
  let sw := nw / scale
  let sh := nh / scale
  let x2 := min imgW (max 0 (sx + sw))
  let y2 := min imgH (max 0 (sy + sh))
  let sx2 := max 0 (min imgW sx)
  let sy2 := max 0 (min imgH sy)
  (sx2, sy2, max 0 (x2 - sx2), max 0 (y2 - sy2))

end P2

/-! ## Helper lemmas -/

theorem App.clamp_idem (v a b : ℚ) : App.clamp (App.clamp v a b) a b = App.clamp v a b := by
  unfold App.clamp
  rcases le_total a b with h | h
  · have h1 : max a (min b v) ≤ b := max_le h (min_le_left _ _)
    rw [min_eq_right h1, ← max_assoc, max_self]
  · have h1 : max a (min b v) = a := max_eq_left ((min_le_left _ _).trans h)
    rw [h1, min_eq_left h, max_eq_left h]

theorem App.le_clamp (v a b : ℚ) : a ≤ App.clamp v a b := le_max_left _ _

theorem App.clamp_le (v a b : ℚ) (h : a ≤ b) : App.clamp v a b ≤ b :=
  max_le h (min_le_left _ _)

theorem App.clamp_le_max (v a b : ℚ) : App.clamp v a b ≤ max a b :=
  max_le (le_max_left _ _) ((min_le_left _ _).trans (le_max_right _ _))

theorem P3.clampMinMax_idem (v a b : ℚ) : P3.clamp (P3.clamp v a b) a b = P3.clamp v a b := by
  unfold P3.clamp
  rcases le_or_lt a (min (max v a) b) with h | h
  · rw [max_eq_left h, min_eq_left (min_le_right _ _)]
  · have hba : b < a := by
      by_contra hab
      push_neg at hab
      exact absurd (le_min (le_max_right _ _) hab) (not_le.mpr h)
    have h1 : min (max v a) b = b := min_eq_right ((le_of_lt hba).trans (le_max_right v a))
    rw [h1, max_eq_right (le_of_lt hba), min_eq_right (le_of_lt hba)]

theorem App.clampZ_eq_self (v a b : ℤ) (h1 : a ≤ v) (h2 : v ≤ b) : App.clampZ v a b = v := by
  unfold App.clampZ
  rw [min_eq_right h2, max_eq_right h1]

theorem App.clampZ_lb (v a b : ℤ) : a ≤ App.clampZ v a b := le_max_left _ _

theorem App.clampZ_ub (v a b : ℤ) (h : a ≤ b) : App.clampZ v a b ≤ b :=
  max_le h (min_le_left _ _)

theorem App.boardIdxOf_bounds (cfg : Config) (hb : 1 ≤ cfg.boards) (x : ℚ) :
    0 ≤ App.boardIdxOf cfg x ∧ App.boardIdxOf cfg x ≤ (cfg.boards : ℤ) - 1 :=
  ⟨App.clampZ_lb _ _ _, App.clampZ_ub _ _ _ (by
    have : (1 : ℤ) ≤ (cfg.boards : ℤ) := by exact_mod_cast hb
    omega)⟩

theorem App.clampItem_x_bounds (cfg : Config) (hW : 0 < cfg.W) (n : Img) :
    ((App.boardIdxOf cfg n.x : ℚ) * (cfg.W : ℚ) ≤ (App.clampItem cfg n).x) ∧
    ((App.clampItem cfg n).x < ((App.boardIdxOf cfg n.x : ℚ) + 1) * (cfg.W : ℚ)) := by
  have hWq : (0 : ℚ) < (cfg.W : ℚ) := by exact_mod_cast hW
  have hw20 : (20 : ℚ) ≤ App.clamp n.w 20 ((cfg.boards : ℚ) * (cfg.W : ℚ)) := App.le_clamp _ _ _
  constructor
  · simpa [App.clampItem] using App.le_clamp n.x _ _
  · have h1 : (App.clampItem cfg n).x ≤
        max ((App.boardIdxOf cfg n.x : ℚ) * (cfg.W : ℚ))
          ((App.boardIdxOf cfg n.x : ℚ) * (cfg.W : ℚ) + (cfg.W : ℚ) -
            App.clamp n.w 20 ((cfg.boards : ℚ) * (cfg.W : ℚ))) := by
      simpa [App.clampItem] using App.clamp_le_max n.x _ _
    calc (App.clampItem cfg n).x ≤ _ := h1
      _ < ((App.boardIdxOf cfg n.x : ℚ) + 1) * (cfg.W : ℚ) := by
        apply max_lt <;> nlinarith

theorem App.boardIdxOf_clampItem (cfg : Config) (hW : 0 < cfg.W) (hb : 1 ≤ cfg.boards)
    (n : Img) : App.boardIdxOf cfg (App.clampItem cfg n).x = App.boardIdxOf cfg n.x := by
  have hWq : (0 : ℚ) < (cfg.W : ℚ) := by exact_mod_cast hW
  obtain ⟨hlo, hhi⟩ := App.clampItem_x_bounds cfg hW n
  have hfloor : ⌊(App.clampItem cfg n).x / (cfg.W : ℚ)⌋ = App.boardIdxOf cfg n.x := by
    rw [Int.floor_eq_iff]
    constructor
    · rw [le_div_iff₀ hWq]
      exact hlo
    · rw [div_lt_iff₀ hWq]
      linarith
  obtain ⟨h0, h1⟩ := App.boardIdxOf_bounds cfg hb n.x
  unfold App.boardIdxOf
  rw [hfloor]
  exact App.clampZ_eq_self _ _ _ h0 h1

theorem App.clampItem_idem (cfg : Config) (hW : 0 < cfg.W) (hb : 1 ≤ cfg.boards) (n : Img) :
    App.clampItem cfg (App.clampItem cfg n) = App.clampItem cfg n := by
  cases n with
  | mk i x y w h imageEl =>
    have hB := App.boardIdxOf_clampItem cfg hW hb ⟨i, x, y, w, h, imageEl⟩
    simp only [App.clampItem] at hB
    simp only [App.clampItem, Img.mk.injEq, hB, App.clamp_idem]

theorem App.clampItem_id (cfg : Config) (n : Img) : (App.clampItem cfg n).id = n.id := by
  simp [App.clampItem]

theorem App.dedupeById_mem_facts (l : List Img) (seen : List String) :
    ∀ n ∈ App.dedupeById l seen, n.id ≠ "" ∧ n.id ∉ seen := by
  induction l generalizing seen with
  | nil => intro n hn; simp [App.dedupeById] at hn
  | cons m rest ih =>
    intro n hn
    by_cases h1 : m.id = ""
    · rw [App.dedupeById, if_pos h1] at hn
      exact ih seen n hn
    · by_cases h2 : m.id ∈ seen
      · rw [App.dedupeById, if_neg h1, if_pos h2] at hn
        exact ih seen n hn
      · rw [App.dedupeById, if_neg h1, if_neg h2] at hn
        rcases List.mem_cons.mp hn with h | h
        · subst h; exact ⟨h1, h2⟩
        · have := ih (m.id :: seen) n h
          exact ⟨this.1, fun hmem => this.2 (List.mem_cons_of_mem _ hmem)⟩

theorem App.dedupeById_nodup (l : List Img) (seen : List String) :
    (App.dedupeById l seen).Pairwise (fun a b => a.id ≠ b.id) := by
  induction l generalizing seen with
  | nil => simp [App.dedupeById]
  | cons m rest ih =>
    by_cases h1 : m.id = ""
    · rw [App.dedupeById, if_pos h1]; exact ih seen
    · by_cases h2 : m.id ∈ seen
      · rw [App.dedupeById, if_neg h1, if_pos h2]; exact ih seen
      · rw [App.dedupeById, if_neg h1, if_neg h2]
        refine List.Pairwise.cons ?_ (ih (m.id :: seen))
        intro n hn hmn
        exact (App.dedupeById_mem_facts rest (m.id :: seen) n hn).2 (hmn ▸ List.mem_cons_self _ _)

theorem App.dedupeById_of_clean (l : List Img) (seen : List String)
    (hid : ∀ n ∈ l, n.id ≠ "") (hnd : l.Pairwise (fun a b => a.id ≠ b.id))
    (hseen : ∀ n ∈ l, n.id ∉ seen) : App.dedupeById l seen = l := by
  induction l generalizing seen with
  | nil => rfl
  | cons m rest ih =>
    rw [App.dedupeById, if_neg (hid m (List.mem_cons_self _ _)),
      if_neg (hseen m (List.mem_cons_self _ _))]
    congr 1
    refine ih (m.id :: seen) (fun n hn => hid n (List.mem_cons_of_mem _ hn))
      (List.Pairwise.of_cons hnd) ?_
    intro n hn
    rcases List.pairwise_cons.mp hnd with ⟨hm, _⟩
    intro hmem
    rcases List.mem_cons.mp hmem with h | h
    · exact hm n hn h.symm
    · exact hseen n (List.mem_cons_of_mem _ hn) h

theorem App.dedupeById_map (l : List Img) (seen : List String) (f : Img → Img)
    (hf : ∀ n, (f n).id = n.id) :
    App.dedupeById (l.map f) seen = (App.dedupeById l seen).map f := by
  induction l generalizing seen with
  | nil => rfl
  | cons m rest ih =>
    simp only [List.map_cons, App.dedupeById, hf m]
    by_cases h1 : m.id = ""
    · rw [if_pos h1, if_pos h1, ih seen]
    · by_cases h2 : m.id ∈ seen
      · rw [if_neg h1, if_neg h1, if_pos h2, if_pos h2, ih seen]
      · rw [if_neg h1, if_neg h1, if_neg h2, if_neg h2, ih (m.id :: seen), List.map_cons]

theorem App.normalizeImages_idem (cfg : Config) (hW : 0 < cfg.W) (hb : 1 ≤ cfg.boards)
    (arr : List Img) :
    App.normalizeImages cfg (App.normalizeImages cfg arr) = App.normalizeImages cfg arr := by
  unfold App.normalizeImages
  rw [App.dedupeById_map _ _ _ (App.clampItem_id cfg)]
  rw [App.dedupeById_of_clean _ _
    (fun n hn => (App.dedupeById_mem_facts arr [] n hn).1)
    (App.dedupeById_nodup arr [])
    (fun n _ => List.not_mem_nil n.id)]
  rw [List.map_map]
  apply List.map_congr_left
  intro n _
  exact App.clampItem_idem cfg hW hb n

theorem P3.clamp_lb (v a b : ℚ) (h : a ≤ b) : a ≤ P3.clamp v a b :=
  le_min (le_max_right v a) h

theorem P3.clamp_ub (v a b : ℚ) : P3.clamp v a b ≤ b := min_le_right _ _

theorem P3.clampToBoards_idem (cfg : Config) (hW : 0 < cfg.W) (hs : 0 ≤ cfg.spacing)
    (n : Img) (hw0 : 0 < n.w) (hwfit : n.w ≤ (cfg.W : ℚ) - 2 * cfg.spacing) :
    P3.clampToBoards cfg (P3.clampToBoards cfg n) = P3.clampToBoards cfg n := by
  cases n with
  | mk i x y w h imageEl =>
    simp only at hw0 hwfit
    have hWq : (0 : ℚ) < (cfg.W : ℚ) := by exact_mod_cast hW
    have hlr : (⌊x / (cfg.W : ℚ)⌋ : ℚ) * (cfg.W : ℚ) + cfg.spacing ≤
        ((⌊x / (cfg.W : ℚ)⌋ : ℚ) + 1) * (cfg.W : ℚ) - cfg.spacing - w := by
      have : ((⌊x / (cfg.W : ℚ)⌋ : ℚ) + 1) * (cfg.W : ℚ) =
          (⌊x / (cfg.W : ℚ)⌋ : ℚ) * (cfg.W : ℚ) + (cfg.W : ℚ) := by ring
      rw [this]
      linarith
    have hx1lb := P3.clamp_lb x _ _ hlr
    have hx1ub := P3.clamp_ub x ((⌊x / (cfg.W : ℚ)⌋ : ℚ) * (cfg.W : ℚ) + cfg.spacing)
      (((⌊x / (cfg.W : ℚ)⌋ : ℚ) + 1) * (cfg.W : ℚ) - cfg.spacing - w)
    have hfloor : ⌊P3.clamp x ((⌊x / (cfg.W : ℚ)⌋ : ℚ) * (cfg.W : ℚ) + cfg.spacing)
        (((⌊x / (cfg.W : ℚ)⌋ : ℚ) + 1) * (cfg.W : ℚ) - cfg.spacing - w) / (cfg.W : ℚ)⌋ =
        ⌊x / (cfg.W : ℚ)⌋ := by
      rw [Int.floor_eq_iff]
      constructor
      · rw [le_div_iff₀ hWq]
        linarith
      · rw [div_lt_iff₀ hWq]
        nlinarith
    simp only [P3.clampToBoards, Img.mk.injEq, hfloor, P3.clampMinMax_idem, and_self, true_and]

theorem App.cropOpForItem_of_unknown (cfg : Config) (i : ℕ) (n : Img)
    (hk : App.knownSize n = false) : App.cropOpForItem cfg i n = none := by
  cases h : n.imageEl with
  | none => simp [App.cropOpForItem, h]
  | some img =>
    simp only [App.knownSize, h, Bool.and_eq_false_iff, decide_eq_false_iff_not,
      not_not] at hk
    simp only [App.cropOpForItem, h]
    rw [if_pos]
    rcases hk with hk | hk
    · exact Or.inl hk
    · exact Or.inr hk

theorem App.cropOpsForBoard_filter_known (cfg : Config) (i : ℕ) (arr : List Img) :
    App.cropOpsForBoard cfg arr i = App.cropOpsForBoard cfg (arr.filter App.knownSize) i := by
  induction arr with
  | nil => rfl
  | cons n rest ih =>
    by_cases hk : App.knownSize n
    · cases hcrop : App.cropOpForItem cfg i n with
      | none =>
        rw [App.cropOpsForBoard, List.filterMap_cons_none hcrop, List.filter_cons_of_pos hk,
          App.cropOpsForBoard, List.filterMap_cons_none hcrop]
        exact ih
      | some op =>
        rw [App.cropOpsForBoard, List.filterMap_cons_some hcrop, List.filter_cons_of_pos hk,
          App.cropOpsForBoard, List.filterMap_cons_some hcrop]
        exact congrArg (op :: ·) ih
    · have hnone := App.cropOpForItem_of_unknown cfg i n (Bool.eq_false_iff.mpr hk)
      rw [App.cropOpsForBoard, List.filterMap_cons_none hnone,
        List.filter_cons_of_neg (by simpa using hk)]
      exact ih

theorem P3.cropOpForItem_img (cfg : Config) (i : ℕ) (n : Img) (op : P3.CropOp)
    (h : P3.cropOpForItem cfg i n = some op) : op.img = n.imageEl := by
  cases hInt : intersectRect n.x n.y n.w n.h ((i : ℚ) * (cfg.W : ℚ)) 0 (cfg.W : ℚ) (cfg.H : ℚ) with
  | none => simp [P3.cropOpForItem, hInt] at h
  | some inter =>
    simp only [P3.cropOpForItem, hInt, Option.map_some', Option.some.injEq] at h
    rw [← h]

theorem P3.drawnOps_filter_decoded (cfg : Config) (i : ℕ) (arr : List Img) :
    P3.drawnOps cfg arr i = P3.drawnOps cfg (arr.filter (fun n => n.imageEl.isSome)) i := by
  induction arr with
  | nil => rfl
  | cons n rest ih =>
    cases himg : n.imageEl with
    | none =>
      rw [List.filter_cons_of_neg (by simp [himg])]
      cases hcrop : P3.cropOpForItem cfg i n with
      | none =>
        rw [P3.drawnOps, P3.cropOpsForBoard, List.filterMap_cons_none hcrop]
        exact ih
      | some op =>
        have : op.img = none := by rw [P3.cropOpForItem_img cfg i n op hcrop, himg]
        rw [P3.drawnOps, P3.cropOpsForBoard, List.filterMap_cons_some hcrop,
          List.filter_cons_of_neg (by simp [this])]
        exact ih
    | some img =>
      rw [List.filter_cons_of_pos (by simp [himg])]
      cases hcrop : P3.cropOpForItem cfg i n with
      | none =>
        rw [P3.drawnOps, P3.cropOpsForBoard, List.filterMap_cons_none hcrop,
          P3.drawnOps, P3.cropOpsForBoard, List.filterMap_cons_none hcrop]
        exact ih
      | some op =>
        rw [P3.drawnOps, P3.cropOpsForBoard, List.filterMap_cons_some hcrop,
          P3.drawnOps, P3.cropOpsForBoard, List.filterMap_cons_some hcrop]
        by_cases hop : op.img.isSome
        · rw [List.filter_cons_of_pos (by simpa using hop), List.filter_cons_of_pos (by simpa using hop)]
          exact congrArg (op :: ·) ih
        · rw [List.filter_cons_of_neg (by simpa using hop), List.filter_cons_of_neg (by simpa using hop)]
          exact ih

/-! ## Claim theorems -/

set_option maxHeartbeats 1600000 in
/-- Claim C1 (code bug evidence): for an item of natural size 400×300 whose
frame (50, 0, 200, 300) spans exactly the two adjacent boards of a 2-board
spread of width 150, App.jsx `cropOpsForBoard` intersects the cover-scaled
render footprint — not the item frame — with each board: both destination
rectangles are the full board slice (dx 0, dy 0, dw 150, dh 300) instead of
the frame∩board rectangles (shown by the `intersectRect` conjuncts), and the
two `dw` values (and the `sw·scale` values, scale being 1 here) sum to
300 ≠ 200, the frame's total width. -/
theorem claim_C1 :
    (App.cropOpsForBoard ⟨2, 150, 300, 0⟩
        [{ id := "a", x := 50, y := 0, w := 200, h := 300, imageEl := some ⟨400, 300⟩ }] 0).map
      (fun op => (op.dx, op.dy, op.dw, op.dh, op.sw)) =
      [((0 : ℚ), (0 : ℚ), (150 : ℚ), (300 : ℚ), (150 : ℚ))] ∧
    (App.cropOpsForBoard ⟨2, 150, 300, 0⟩
        [{ id := "a", x := 50, y := 0, w := 200, h := 300, imageEl := some ⟨400, 300⟩ }] 1).map
      (fun op => (op.dx, op.dy, op.dw, op.dh, op.sw)) =
      [((0 : ℚ), (0 : ℚ), (150 : ℚ), (300 : ℚ), (150 : ℚ))] ∧
    intersectRect 50 0 200 300 ((0 : ℚ) * 150) 0 150 300 = some ⟨50, 0, 100, 300⟩ ∧
    intersectRect 50 0 200 300 ((1 : ℚ) * 150) 0 150 300 = some ⟨150, 0, 100, 300⟩ ∧
    ((150 : ℚ) + 150 ≠ 200) :=
  ⟨by
    simp only [App.cropOpsForBoard, App.cropOpForItem, intersectRect, List.filterMap_cons,
      List.filterMap_nil]
    norm_num,
   by
    simp only [App.cropOpsForBoard, App.cropOpForItem, intersectRect, List.filterMap_cons,
      List.filterMap_nil]
    norm_num,
   by
    simp only [intersectRect]
    norm_num,
   by
    simp only [intersectRect]
    norm_num,
   by norm_num⟩

/-- Claim C4 (amended): the App.jsx bounds-fix pass `normalizeImages` is
idempotent on every item list for every valid configuration (`0 < W`,
`1 ≤ boards`); the part_003 bounds-fix pass `clampToBoards` is idempotent on
every item that fits its board interior (`0 < w ≤ W − 2·spacing`,
`0 ≤ spacing`) — but not on wider items, see the counterexample. -/
theorem claim_C4 (cfg : Config) (hW : 0 < cfg.W) (hb : 1 ≤ cfg.boards) :
    (∀ arr : List Img,
      App.normalizeImages cfg (App.normalizeImages cfg arr) = App.normalizeImages cfg arr) ∧
    (0 ≤ cfg.spacing → ∀ n : Img, 0 < n.w → n.w ≤ (cfg.W : ℚ) - 2 * cfg.spacing →
      P3.clampToBoards cfg (P3.clampToBoards cfg n) = P3.clampToBoards cfg n) :=
  ⟨App.normalizeImages_idem cfg hW hb,
   fun hs n hw0 hfit => P3.clampToBoards_idem cfg hW hs n hw0 hfit⟩

/-- Claim C4 witness: both idempotence statements evaluated at a concrete
configuration and concrete items. -/
theorem claim_C4_witness :
    App.normalizeImages ⟨6, 1080, 1320, 24⟩ (App.normalizeImages ⟨6, 1080, 1320, 24⟩
        [{ id := "a", x := -5, y := 9999, w := 3, h := 4 }]) =
      App.normalizeImages ⟨6, 1080, 1320, 24⟩
        [{ id := "a", x := -5, y := 9999, w := 3, h := 4 }] ∧
    P3.clampToBoards ⟨6, 1080, 1320, 24⟩ (P3.clampToBoards ⟨6, 1080, 1320, 24⟩
        { id := "b", x := 50, y := 60, w := 200, h := 100 }) =
      P3.clampToBoards ⟨6, 1080, 1320, 24⟩ { id := "b", x := 50, y := 60, w := 200, h := 100 } :=
  ⟨(claim_C4 ⟨6, 1080, 1320, 24⟩ (by norm_num) (by norm_num)).1 _,
   (claim_C4 ⟨6, 1080, 1320, 24⟩ (by norm_num) (by norm_num)).2 (by norm_num) _
     (by norm_num) (by norm_num)⟩

/-- Claim C4 counterexample: at the reachable part_003 configuration
`boardW = 100`, `spacing = 150`, applying the `clampToBoards` bounds-fix pass
twice to this one-item list moves the item again (x: 10 ↦ −60 ↦ −160), so
the pass is not idempotent for every item list as the claim states. -/
theorem claim_C4_counterexample :
    (([{ id := "a", x := 10, y := 200, w := 10, h := 10 }] : List Img).map
        (P3.clampToBoards ⟨3, 100, 1320, 150⟩)).map (P3.clampToBoards ⟨3, 100, 1320, 150⟩) ≠
      ([{ id := "a", x := 10, y := 200, w := 10, h := 10 }] : List Img).map
        (P3.clampToBoards ⟨3, 100, 1320, 150⟩) := by
  simp only [List.map_cons, List.map_nil, P3.clampToBoards, P3.clamp]
  norm_num [Int.floor_eq_iff, Img.mk.injEq]

/-- Claim C7 (amended): an item with no decoded natural size contributes no
operation in the App.jsx compositor (`cropOpsForBoard` is unchanged by
filtering such items out, for every board), and no guessed size is
substituted; in the part_003 variant the compositor itself does emit an op
for such an item (see the counterexample), but the export loop skips it, so
the *drawn* op list is likewise unchanged by filtering undecoded items out. -/
theorem claim_C7 :
    (∀ (cfg : Config) (arr : List Img) (i : ℕ),
      App.cropOpsForBoard cfg arr i = App.cropOpsForBoard cfg (arr.filter App.knownSize) i) ∧
    (∀ (cfg : Config) (arr : List Img) (i : ℕ),
      P3.drawnOps cfg arr i = P3.drawnOps cfg (arr.filter (fun n => n.imageEl.isSome)) i) :=
  ⟨fun cfg arr i => App.cropOpsForBoard_filter_known cfg i arr,
   fun cfg arr i => P3.drawnOps_filter_decoded cfg i arr⟩

/-- Claim C7 counterexample: the part_003 compositor emits one crop op —
carrying no image reference — for an item whose natural size is unknown
(`_imageEl` absent), so the claim that every such item contributes an empty
op list is false of `P3.cropOpsForBoard`. -/
theorem claim_C7_counterexample :
    (P3.cropOpsForBoard ⟨1, 200, 200, 24⟩
        [{ id := "a", x := 10, y := 10, w := 50, h := 50, imageEl := none }] 0).map
      (fun op => op.img) = [none] ∧
    P3.cropOpsForBoard ⟨1, 200, 200, 24⟩
        [{ id := "a", x := 10, y := 10, w := 50, h := 50, imageEl := none }] 0 ≠ [] := by
  constructor
  · simp only [P3.cropOpsForBoard, P3.cropOpForItem, intersectRect, List.filterMap_cons,
      List.filterMap_nil]
    norm_num
  · simp only [P3.cropOpsForBoard, P3.cropOpForItem, intersectRect, List.filterMap_cons,
      List.filterMap_nil]
    norm_num

theorem intersectRect_some (ax ay aw ah cx cy cw ch : ℚ) (r : Rect)
    (h : intersectRect ax ay aw ah cx cy cw ch = some r) :
    r.x = max ax cx ∧ r.y = max ay cy ∧
    r.w = min (ax + aw) (cx + cw) - max ax cx ∧
    r.h = min (ay + ah) (cy + ch) - max ay cy ∧ 0 < r.w ∧ 0 < r.h := by
  by_cases hc : (min (ax + aw) (cx + cw) - max ax cx ≤ 0 ∨
      min (ay + ah) (cy + ch) - max ay cy ≤ 0)
  · rw [intersectRect] at h
    simp only [hc, if_true] at h
    exact absurd h (by simp)
  · rw [intersectRect] at h
    simp only [hc, if_false] at h
    push_neg at hc
    have hr := Option.some.inj h
    rw [← hr]
    exact ⟨rfl, rfl, rfl, rfl, hc.1, hc.2⟩

theorem App.cropOp_cover_exact (cfg : Config) (n : Img) (img : ImgEl) (i : ℕ)
    (op : App.CropOp) (himg : n.imageEl = some img) (hnw : 0 < img.naturalWidth)
    (hnh : 0 < img.naturalHeight) (hop : App.cropOpForItem cfg i n = some op) :
    op.sw * App.itemScale n img = op.dw ∧ op.sh * App.itemScale n img = op.dh := by
  simp only [App.cropOpForItem, himg] at hop
  rw [if_neg (by push_neg; exact ⟨hnw.ne', hnh.ne'⟩)] at hop
  obtain ⟨inter, hInt, hf⟩ := Option.map_eq_some'.mp hop
  obtain ⟨hx, hy, hw, hh, hwpos, hhpos⟩ :=
    intersectRect_some _ _ _ _ _ _ _ _ _ hInt
  set iw := img.naturalWidth with hiw
  set ih := img.naturalHeight with hih
  set scale := max (n.w / iw) (n.h / ih) with hscaledef
  have hscale_eq : App.itemScale n img = scale := rfl
  set ox := n.x + (n.w - iw * scale) / 2 with hox
  set oy := n.y + (n.h - ih * scale) / 2 with hoy
  have hxlb : ox ≤ inter.x := hx ▸ le_max_left _ _
  have hylb : oy ≤ inter.y := hy ▸ le_max_left _ _
  have hxub : inter.x + inter.w ≤ ox + iw * scale := by
    rw [hw, hx]
    have := min_le_left (ox + iw * scale) ((i : ℚ) * (cfg.W : ℚ) + (cfg.W : ℚ))
    linarith
  have hyub : inter.y + inter.h ≤ oy + ih * scale := by
    rw [hh, hy]
    have := min_le_left (oy + ih * scale) ((0 : ℚ) + (cfg.H : ℚ))
    linarith
  have hscale : 0 < scale := by
    have hrw : 0 < iw * scale := by nlinarith
    nlinarith
  have hsx : max 0 (min iw ((inter.x - ox) / scale)) = (inter.x - ox) / scale := by
    rw [min_eq_right, max_eq_right]
    · exact div_nonneg (by linarith) hscale.le
    · rw [div_le_iff₀ hscale]
      nlinarith
  have hsy : max 0 (min ih ((inter.y - oy) / scale)) = (inter.y - oy) / scale := by
    rw [min_eq_right, max_eq_right]
    · exact div_nonneg (by linarith) hscale.le
    · rw [div_le_iff₀ hscale]
      nlinarith
  have hswle : inter.w / scale ≤ iw - (inter.x - ox) / scale := by
    rw [le_sub_iff_add_le, div_add_div_same, div_le_iff₀ hscale]
    nlinarith
  have hshle : inter.h / scale ≤ ih - (inter.y - oy) / scale := by
    rw [le_sub_iff_add_le, div_add_div_same, div_le_iff₀ hscale]
    nlinarith
  have hopsw : op.sw = inter.w / scale := by
    rw [← hf]
    simp only [hsx]
    rw [min_eq_right hswle, max_eq_right (div_nonneg hwpos.le hscale.le)]
  have hopsh : op.sh = inter.h / scale := by
    rw [← hf]
    simp only [hsy]
    rw [min_eq_right hshle, max_eq_right (div_nonneg hhpos.le hscale.le)]
  have hopdw : op.dw = inter.w := by rw [← hf]
  have hopdh : op.dh = inter.h := by rw [← hf]
  rw [hscale_eq, hopsw, hopsh, hopdw, hopdh,
    div_mul_cancel₀ _ hscale.ne', div_mul_cancel₀ _ hscale.ne']
  exact ⟨rfl, rfl⟩

set_option maxHeartbeats 1600000 in
/-- Claim C8 (code bug evidence, plus the guarantee that holds): the part_002
`coverSourceRect` subtracts the centering offset instead of adding it when
mapping frame coordinates back to source pixels, so for a 400×300 image
cover-fitted into a 300×300 frame fully visible on one board it reports the
source rectangle (0, 0, 250, 300); with cover scale
`max(300/400, 300/300) = 1` this gives `sw·scale = 250` against `dw = 300`,
far beyond the 1e-6 tolerance — a non-uniform horizontal stretch.  The
App.jsx compositor, by contrast, satisfies the claim exactly: every emitted
crop op has `sw·scale = dw` and `sh·scale = dh`. -/
theorem claim_C8 :
    (P2.coverSourceRect 400 300 300 300 0 0 300 300 = (0, 0, 250, 300) ∧
      ¬ |(250 : ℚ) * max ((300 : ℚ) / 400) ((300 : ℚ) / 300) - 300| < 1 / 1000000) ∧
    (∀ (cfg : Config) (n : Img) (img : ImgEl) (i : ℕ) (op : App.CropOp),
      n.imageEl = some img → 0 < img.naturalWidth → 0 < img.naturalHeight →
      App.cropOpForItem cfg i n = some op →
      op.sw * App.itemScale n img = op.dw ∧ op.sh * App.itemScale n img = op.dh) :=
  ⟨⟨by norm_num [P2.coverSourceRect], by
      rw [abs_sub_lt_iff]
      norm_num⟩,
   fun cfg n img i op himg hnw hnh hop =>
     App.cropOp_cover_exact cfg n img i op himg hnw hnh hop⟩

set_option maxHeartbeats 1600000 in
/-- Claim C8 witness: the App.jsx cover-exactness applied at a concrete item
(50×50 frame at (10, 10), natural size 100×80, scale 5/8): the emitted op has
`sw·scale = 100·(5/8) = 125/2 = dw` and `sh·scale = 80·(5/8) = 50 = dh`. -/
theorem claim_C8_witness :
    (100 : ℚ) * App.itemScale
        { id := "a", x := 10, y := 10, w := 50, h := 50, imageEl := some ⟨100, 80⟩ } ⟨100, 80⟩ =
      125 / 2 ∧
    (80 : ℚ) * App.itemScale
        { id := "a", x := 10, y := 10, w := 50, h := 50, imageEl := some ⟨100, 80⟩ } ⟨100, 80⟩ =
      50 := by
  have hop : App.cropOpForItem ⟨1, 200, 200, 0⟩ 0
      { id := "a", x := 10, y := 10, w := 50, h := 50, imageEl := some ⟨100, 80⟩ } =
      some { img := ⟨100, 80⟩, sx := 0, sy := 0, sw := 100, sh := 80,
             dx := 15 / 4, dy := 10, dw := 125 / 2, dh := 50 } := by
    simp only [App.cropOpForItem, intersectRect]
    norm_num
  obtain ⟨h1, h2⟩ := claim_C8.2 ⟨1, 200, 200, 0⟩
    { id := "a", x := 10, y := 10, w := 50, h := 50, imageEl := some ⟨100, 80⟩ } ⟨100, 80⟩ 0
    { img := ⟨100, 80⟩, sx := 0, sy := 0, sw := 100, sh := 80,
      dx := 15 / 4, dy := 10, dw := 125 / 2, dh := 50 }
    rfl (by norm_num) (by norm_num) hop
  exact ⟨by simpa using h1, by simpa using h2⟩

theorem App.insertByAreaDesc_perm (x : Img) (l : List Img) :
    (App.insertByAreaDesc x l).Perm (x :: l) := by
  induction l with
  | nil => exact List.Perm.refl _
  | cons y ys ih =>
    rw [App.insertByAreaDesc]
    by_cases h : x.w * x.h ≤ y.w * y.h
    · rw [if_pos h]
      exact (ih.cons y).trans (List.Perm.swap x y ys)
    · rw [if_neg h]

theorem App.sortByAreaDesc_perm (l : List Img) : (App.sortByAreaDesc l).Perm l := by
  have key : ∀ (l acc : List Img),
      (l.foldl (fun acc x => App.insertByAreaDesc x acc) acc).Perm (acc ++ l) := by
    intro l
    induction l with
    | nil => intro acc; simp
    | cons x rest ih =>
      intro acc
      rw [List.foldl_cons]
      refine (ih (App.insertByAreaDesc x acc)).trans ?_
      refine (((App.insertByAreaDesc_perm x acc).append_right rest).trans ?_)
      exact List.perm_middle.symm
  simpa using key l []

theorem App.insertByAreaDesc_sorted (x : Img) (l : List Img)
    (h : l.Pairwise (fun a b => b.w * b.h ≤ a.w * a.h)) :
    (App.insertByAreaDesc x l).Pairwise (fun a b => b.w * b.h ≤ a.w * a.h) := by
  induction l with
  | nil => simp [App.insertByAreaDesc]
  | cons y ys ih =>
    rcases List.pairwise_cons.mp h with ⟨hy, hys⟩
    rw [App.insertByAreaDesc]
    by_cases hxy : x.w * x.h ≤ y.w * y.h
    · rw [if_pos hxy]
      refine List.pairwise_cons.mpr ⟨?_, ih hys⟩
      intro z hz
      rcases List.mem_cons.mp ((App.insertByAreaDesc_perm x ys).mem_iff.mp hz) with hz2 | hz2
      · rw [hz2]; exact hxy
      · exact hy z hz2
    · rw [if_neg hxy]
      push_neg at hxy
      refine List.pairwise_cons.mpr ⟨?_, h⟩
      intro z hz
      rcases List.mem_cons.mp hz with hz | hz
      · rw [hz]; exact hxy.le
      · exact (hy z hz).trans hxy.le

theorem App.sortByAreaDesc_sorted (l : List Img) :
    (App.sortByAreaDesc l).Pairwise (fun a b => b.w * b.h ≤ a.w * a.h) := by
  have key : ∀ (l acc : List Img),
      acc.Pairwise (fun a b => b.w * b.h ≤ a.w * a.h) →
      (l.foldl (fun acc x => App.insertByAreaDesc x acc) acc).Pairwise
        (fun a b => b.w * b.h ≤ a.w * a.h) := by
    intro l
    induction l with
    | nil => intro acc h; simpa using h
    | cons x rest ih =>
      intro acc h
      rw [List.foldl_cons]
      exact ih _ (App.insertByAreaDesc_sorted x acc h)
  exact key l [] (List.Pairwise.nil)

theorem App.gridCands_shape (cfg : Config) (n c : Img) (h : c ∈ App.gridCands cfg n) :
    c.id = n.id ∧ c.w = n.w ∧ c.h = n.h := by
  simp only [App.gridCands, List.mem_flatMap, List.mem_map] at h
  obtain ⟨b, _, y, _, x, _, rfl⟩ := h
  exact ⟨rfl, rfl, rfl⟩

theorem App.gridScan_some (cfg : Config) (placed : List Img) (n c : Img)
    (h : App.gridScan cfg placed n = some c) :
    overlapsAny placed c cfg.spacing = false ∧ c ∈ App.gridCands cfg n := by
  refine ⟨?_, List.mem_of_find?_eq_some h⟩
  have := List.find?_some h
  simpa using this

theorem App.packStep_id (cfg : Config) (placed : List Img) (n : Img) :
    (App.packStep cfg placed n).id = n.id := by
  rw [App.packStep]
  cases h : App.gridScan cfg placed n with
  | none => rfl
  | some c =>
    simp only [Option.getD_some]
    exact (App.gridCands_shape cfg n c (App.gridScan_some cfg placed n c h).2).1

theorem App.packRun_ids (cfg : Config) :
    ∀ (l placed : List Img), (App.packRun cfg placed l).map Img.id = l.map Img.id := by
  intro l
  induction l with
  | nil => intro placed; rfl
  | cons n rest ih =>
    intro placed
    rw [App.packRun, List.map_cons, List.map_cons, App.packStep_id, ih]

/-- Claim C5: `packLayout` processes the items in an order sorted descending
by area `w·h` (a permutation of the input); an accepted scan position is a
grid candidate (step `max(8, spacing)`, row-major within each board in board
order) for the same item — same id and size — that overlaps no previously
accepted item at margin `spacing`; when no position exists the item keeps its
rectangle unchanged; and the output carries exactly the input's ids, so no
item is dropped. -/
theorem claim_C5 (cfg : Config) (l : List Img) :
    ((App.packLayout cfg l).map Img.id).Perm (l.map Img.id) ∧
    (App.sortByAreaDesc l).Pairwise (fun a b => b.w * b.h ≤ a.w * a.h) ∧
    (∀ (placed : List Img) (n c : Img), App.gridScan cfg placed n = some c →
      overlapsAny placed c cfg.spacing = false ∧ c.id = n.id ∧ c.w = n.w ∧ c.h = n.h ∧
      c ∈ App.gridCands cfg n) ∧
    (∀ (placed : List Img) (n : Img), App.gridScan cfg placed n = none →
      App.packStep cfg placed n = n) := by
  refine ⟨?_, App.sortByAreaDesc_sorted l, ?_, ?_⟩
  · rw [App.packLayout, App.packRun_ids]
    exact (App.sortByAreaDesc_perm l).map Img.id
  · intro placed n c h
    obtain ⟨hov, hmem⟩ := App.gridScan_some cfg placed n c h
    obtain ⟨hid, hw, hh⟩ := App.gridCands_shape cfg n c hmem
    exact ⟨hov, hid, hw, hh, hmem⟩
  · intro placed n h
    rw [App.packStep, h, Option.getD_none]

set_option maxHeartbeats 800000 in
/-- Claim C5 witness: the statement instantiated at a concrete two-item list
on one 200×200 board (spacing 0): the smaller item is processed second, the
output keeps both ids, and an oversized item (w > boardW) admits no grid
position and is kept unchanged by `packStep`. -/
theorem claim_C5_witness :
    ((App.packLayout ⟨1, 200, 200, 0⟩
        [{ id := "a", x := 3, y := 4, w := 30, h := 30 },
         { id := "b", x := 5, y := 6, w := 90, h := 90 }]).map Img.id).Perm
      ["a", "b"] ∧
    App.packStep ⟨1, 200, 200, 0⟩ []
        { id := "c", x := 7, y := 8, w := 300, h := 40 } =
      { id := "c", x := 7, y := 8, w := 300, h := 40 } := by
  constructor
  · exact (claim_C5 ⟨1, 200, 200, 0⟩
      [{ id := "a", x := 3, y := 4, w := 30, h := 30 },
       { id := "b", x := 5, y := 6, w := 90, h := 90 }]).1
  · refine (claim_C5 ⟨1, 200, 200, 0⟩ []).2.2.2 []
      { id := "c", x := 7, y := 8, w := 300, h := 40 } ?_
    rw [App.gridScan]
    have : App.gridCands ⟨1, 200, 200, 0⟩ { id := "c", x := 7, y := 8, w := 300, h := 40 } = [] := by
      simp only [App.gridCands, App.gridXs, App.gridYs]
      norm_num
    rw [this]
    rfl

theorem App.randLoop_none (cfg : Config) (s : RandStream) (k : ℕ) (placed : List Img)
    (node : Img) : ∀ (fuel t : ℕ),
    (∀ u, t ≤ u → u < t + fuel →
      overlapsAny placed (App.candAt cfg s k node u) cfg.spacing = true) →
    App.randLoop cfg s k placed node t fuel = none := by
  intro fuel
  induction fuel with
  | zero => intro t _; rfl
  | succ m ih =>
    intro t h
    rw [App.randLoop, if_pos (h t le_rfl (by omega))]
    exact ih (t + 1) (fun u hu1 hu2 => h u (by omega) (by omega))

theorem App.randLoop_none_all_overlap (cfg : Config) (s : RandStream) (k : ℕ)
    (placed : List Img) (node : Img) : ∀ (fuel t : ℕ),
    App.randLoop cfg s k placed node t fuel = none →
    ∀ u, t ≤ u → u < t + fuel →
      overlapsAny placed (App.candAt cfg s k node u) cfg.spacing = true := by
  intro fuel
  induction fuel with
  | zero => intro t _ u hu1 hu2; omega
  | succ m ih =>
    intro t h u hu1 hu2
    rw [App.randLoop] at h
    by_cases hov : overlapsAny placed (App.candAt cfg s k node t) cfg.spacing
    · rcases eq_or_lt_of_le hu1 with rfl | hu3
      · exact hov
      · rw [if_pos hov] at h
        exact ih (t + 1) h u hu3 (by omega)
    · rw [if_neg hov] at h
      exact absurd h (by simp)

theorem App.randLoop_some (cfg : Config) (s : RandStream) (k : ℕ) (placed : List Img)
    (node : Img) : ∀ (fuel t : ℕ) (c : Img) (next : ℕ),
    App.randLoop cfg s k placed node t fuel = some (c, next) →
    ∃ u, t ≤ u ∧ u < t + fuel ∧ c = App.candAt cfg s k node u ∧
      overlapsAny placed c cfg.spacing = false ∧ next = k + 3 * (u + 1) ∧
      ∀ v, t ≤ v → v < u →
        overlapsAny placed (App.candAt cfg s k node v) cfg.spacing = true := by
  intro fuel
  induction fuel with
  | zero => intro t c next h; exact absurd h (by simp [App.randLoop])
  | succ m ih =>
    intro t c next h
    rw [App.randLoop] at h
    by_cases hov : overlapsAny placed (App.candAt cfg s k node t) cfg.spacing
    · rw [if_pos hov] at h
      obtain ⟨u, hu1, hu2, hc, hov2, hn, hmin⟩ := ih (t + 1) c next h
      refine ⟨u, by omega, by omega, hc, hov2, hn, fun v hv1 hv2 => ?_⟩
      rcases eq_or_lt_of_le hv1 with rfl | hv3
      · exact hov
      · exact hmin v hv3 hv2
    · rw [if_neg hov] at h
      obtain ⟨hc, hn⟩ := Prod.mk.injEq _ _ _ _ ▸ Option.some.inj h
      refine ⟨t, le_rfl, by omega, hc.symm, ?_, hn.symm, fun v hv1 hv2 => by omega⟩
      rw [← hc]
      exact Bool.eq_false_iff.mpr hov

theorem App.randLoop_succ_accept (cfg : Config) (s : RandStream) (k : ℕ)
    (placed : List Img) (node : Img) (t m : ℕ)
    (h : overlapsAny placed (App.candAt cfg s k node t) cfg.spacing = false) :
    App.randLoop cfg s k placed node t (m + 1) =
      some (App.candAt cfg s k node t, k + 3 * (t + 1)) := by
  rw [App.randLoop, if_neg (by simp [h])]

theorem App.candAt_bounds (cfg : Config) (s : RandStream) (k : ℕ) (node : Img) (t : ℕ)
    (hs : ∀ i, 0 ≤ s i ∧ s i < 1) (hb : 1 ≤ cfg.boards)
    (hw : node.w ≤ (cfg.W : ℚ)) (hh : node.h ≤ (cfg.H : ℚ)) :
    ∃ b : ℤ, 0 ≤ b ∧ b < (cfg.boards : ℤ) ∧
      (b : ℚ) * (cfg.W : ℚ) ≤ (App.candAt cfg s k node t).x ∧
      (App.candAt cfg s k node t).x ≤ (b : ℚ) * (cfg.W : ℚ) + (cfg.W : ℚ) - node.w ∧
      0 ≤ (App.candAt cfg s k node t).y ∧
      (App.candAt cfg s k node t).y ≤ (cfg.H : ℚ) - node.h ∧
      (App.candAt cfg s k node t).w = node.w ∧
      (App.candAt cfg s k node t).h = node.h := by
  obtain ⟨hr0, hr1⟩ := hs (k + 3 * t)
  obtain ⟨hx0, hx1⟩ := hs (k + 3 * t + 1)
  obtain ⟨hy0, hy1⟩ := hs (k + 3 * t + 2)
  refine ⟨⌊s (k + 3 * t) * (cfg.boards : ℚ)⌋, ?_, ?_, ?_, ?_, ?_, ?_, rfl, rfl⟩
  · rw [Int.le_floor]
    push_cast
    positivity
  · rw [Int.floor_lt]
    calc s (k + 3 * t) * (cfg.boards : ℚ) < 1 * (cfg.boards : ℚ) := by
          have : (0 : ℚ) < (cfg.boards : ℚ) := by
            have : (1 : ℚ) ≤ (cfg.boards : ℚ) := by exact_mod_cast hb
            linarith
          exact mul_lt_mul_of_pos_right hr1 this
      _ = ((cfg.boards : ℤ) : ℚ) := by push_cast; ring
  · show ((⌊rng (s (k + 3 * t + 1)) _ _⌋ : ℤ) : ℚ) ≥ _
    have hbs : ((⌊s (k + 3 * t) * (cfg.boards : ℚ)⌋ * cfg.W : ℤ) : ℚ) =
        ((⌊s (k + 3 * t) * (cfg.boards : ℚ)⌋ : ℤ) : ℚ) * (cfg.W : ℚ) := by push_cast; ring
    rw [ge_iff_le, ← hbs, Int.cast_le, Int.le_floor, hbs]
    rw [rng]
    have harg : (⌊s (k + 3 * t) * (cfg.boards : ℚ)⌋ : ℚ) * (cfg.W : ℚ) + (cfg.W : ℚ) - node.w -
        (⌊s (k + 3 * t) * (cfg.boards : ℚ)⌋ : ℚ) * (cfg.W : ℚ) = (cfg.W : ℚ) - node.w := by
      ring
    nlinarith [mul_nonneg hx0 (by linarith : (0 : ℚ) ≤ (cfg.W : ℚ) - node.w)]
  · have hfl := Int.floor_le (rng (s (k + 3 * t + 1))
      ((⌊s (k + 3 * t) * (cfg.boards : ℚ)⌋ : ℚ) * (cfg.W : ℚ))
      ((⌊s (k + 3 * t) * (cfg.boards : ℚ)⌋ : ℚ) * (cfg.W : ℚ) + (cfg.W : ℚ) - node.w))
    show ((⌊_⌋ : ℤ) : ℚ) ≤ _
    refine le_trans hfl ?_
    rw [rng]
    nlinarith [mul_le_of_le_one_left (show (0 : ℚ) ≤ (cfg.W : ℚ) - node.w by linarith) hx1.le]
  · show (0 : ℚ) ≤ ((⌊rng (s (k + 3 * t + 2)) 0 ((cfg.H : ℚ) - node.h)⌋ : ℤ) : ℚ)
    have : (0 : ℤ) ≤ ⌊rng (s (k + 3 * t + 2)) 0 ((cfg.H : ℚ) - node.h)⌋ := by
      rw [Int.le_floor, rng]
      push_cast
      nlinarith
    exact_mod_cast this
  · have hfl := Int.floor_le (rng (s (k + 3 * t + 2)) 0 ((cfg.H : ℚ) - node.h))
    show ((⌊_⌋ : ℤ) : ℚ) ≤ _
    refine le_trans hfl ?_
    rw [rng]
    nlinarith

/-- Claim C2 (amended): in App.jsx `attemptPlace` every random candidate for
an item with w ≤ boardW and h ≤ boardH lies in the full span of its randomly
chosen board — x in [boardOrigin, boardOrigin + boardW − w] and y in
[0, boardH − h], with no `spacing` inset (the claimed usable interior is
wrong for this variant, see the counterexample) — drawn for a budget of 400
tries; a candidate is accepted as soon as it does not overlap (at margin
`spacing`) any already-placed item, every earlier candidate having
overlapped; if the phase yields nothing, all 400 candidates overlapped. -/
theorem claim_C2 (cfg : Config) (s : RandStream) (k : ℕ) (placed : List Img) (node : Img)
    (hs : ∀ i, 0 ≤ s i ∧ s i < 1) (hb : 1 ≤ cfg.boards)
    (hw : node.w ≤ (cfg.W : ℚ)) (hh : node.h ≤ (cfg.H : ℚ)) :
    (∀ t : ℕ, ∃ b : ℤ, 0 ≤ b ∧ b < (cfg.boards : ℤ) ∧
      (b : ℚ) * (cfg.W : ℚ) ≤ (App.candAt cfg s k node t).x ∧
      (App.candAt cfg s k node t).x ≤ (b : ℚ) * (cfg.W : ℚ) + (cfg.W : ℚ) - node.w ∧
      0 ≤ (App.candAt cfg s k node t).y ∧
      (App.candAt cfg s k node t).y ≤ (cfg.H : ℚ) - node.h) ∧
    (∀ (c : Img) (next : ℕ), App.randPhase cfg s k placed node = some (c, next) →
      ∃ u < App.maxTries, c = App.candAt cfg s k node u ∧
        overlapsAny placed c cfg.spacing = false ∧
        ∀ v < u, overlapsAny placed (App.candAt cfg s k node v) cfg.spacing = true) ∧
    (App.randPhase cfg s k placed node = none →
      ∀ t < App.maxTries, overlapsAny placed (App.candAt cfg s k node t) cfg.spacing = true) := by
  refine ⟨?_, ?_, ?_⟩
  · intro t
    obtain ⟨b, h1, h2, h3, h4, h5, h6, _, _⟩ := App.candAt_bounds cfg s k node t hs hb hw hh
    exact ⟨b, h1, h2, h3, h4, h5, h6⟩
  · intro c next h
    obtain ⟨u, _, hu2, hc, hov, _, hmin⟩ :=
      App.randLoop_some cfg s k placed node App.maxTries 0 c next h
    exact ⟨u, by omega, hc, hov, fun v hv => hmin v (Nat.zero_le v) hv⟩
  · intro h t ht
    exact App.randLoop_none_all_overlap cfg s k placed node App.maxTries 0 h t
      (Nat.zero_le t) (by omega)

/-- Claim C2 witness: the candidate bounds evaluated on one 200×200 board
with a 50×50 item and the constant stream 1/2 (board 0, so the bounds are
x ∈ [0, 150], y ∈ [0, 150]). -/
theorem claim_C2_witness :
    (0 : ℚ) * 200 ≤ (App.candAt ⟨1, 200, 200, 24⟩ (fun _ => 1/2) 0
        { id := "a", x := 7, y := 7, w := 50, h := 50 } 0).x ∧
    (App.candAt ⟨1, 200, 200, 24⟩ (fun _ => 1/2) 0
        { id := "a", x := 7, y := 7, w := 50, h := 50 } 0).x ≤ (0 : ℚ) * 200 + 200 - 50 ∧
    (0 : ℚ) ≤ (App.candAt ⟨1, 200, 200, 24⟩ (fun _ => 1/2) 0
        { id := "a", x := 7, y := 7, w := 50, h := 50 } 0).y ∧
    (App.candAt ⟨1, 200, 200, 24⟩ (fun _ => 1/2) 0
        { id := "a", x := 7, y := 7, w := 50, h := 50 } 0).y ≤ (200 : ℚ) - 50 := by
  obtain ⟨h1, -, -⟩ := claim_C2 ⟨1, 200, 200, 24⟩ (fun _ => 1/2) 0 []
    { id := "a", x := 7, y := 7, w := 50, h := 50 }
    (fun i => by norm_num) (by norm_num) (by norm_num) (by norm_num)
  obtain ⟨b, hb0, hb1, hx1, hx2, hy1, hy2⟩ := h1 0
  have hb2 : b = 0 := by
    have h1' : ((({ boards := 1, W := 200, H := 200, spacing := 24 } : Config).boards : ℤ)) = 1 := by
      norm_num
    omega
  subst hb2
  refine ⟨?_, ?_, hy1, ?_⟩
  · simpa using hx1
  · simpa using hx2
  · simpa using hy2

/-- Claim C2 counterexample: with spacing 24 on one 200×200 board and the
all-zero stream, the very first tried (and accepted) candidate sits at
(0, 0) — x = 0 is strictly below the claimed usable-interior lower bound
`boardOrigin + spacing = 24`, and y = 0 is below `spacing` as well. -/
theorem claim_C2_counterexample :
    App.randPhase ⟨1, 200, 200, 24⟩ (fun _ => 0) 0 []
        { id := "a", x := 100, y := 100, w := 50, h := 50 } =
      some ({ id := "a", x := 0, y := 0, w := 50, h := 50 }, 3) ∧
    ¬ ((0 : ℚ) * 200 + 24 ≤ 0) := by
  have hc : App.candAt ⟨1, 200, 200, 24⟩ (fun _ => 0) 0
      { id := "a", x := 100, y := 100, w := 50, h := 50 } 0 =
      { id := "a", x := 0, y := 0, w := 50, h := 50 } := by
    simp only [App.candAt, rng]
    norm_num
  constructor
  · rw [App.randPhase, show App.maxTries = 399 + 1 from rfl,
      App.randLoop_succ_accept _ _ _ _ _ _ _ (by rw [hc]; rfl), hc]
  · norm_num

theorem P1.tryLoop_none (cfg : Config) (s : RandStream) (opts : P1.Opts) (nextBoard : ℕ)
    (placed : List Img) (node : Img) (w h : ℚ) : ∀ (fuel t idx : ℕ),
    (∀ j < fuel, overlapsAny placed
      (P1.tryCand cfg s opts nextBoard node w h (t + j) (idx + j * P1.tryConsume opts))
      cfg.spacing = true) →
    P1.tryLoop cfg s opts nextBoard placed node w h t idx fuel = none := by
  intro fuel
  induction fuel with
  | zero => intro t idx _; rfl
  | succ m ih =>
    intro t idx hall
    rw [P1.tryLoop, if_pos (by simpa using hall 0 (by omega))]
    refine ih (t + 1) (idx + P1.tryConsume opts) ?_
    intro j hj
    have h' := hall (j + 1) (by omega)
    rw [show t + (j + 1) = t + 1 + j from by omega,
      show idx + (j + 1) * P1.tryConsume opts =
        idx + P1.tryConsume opts + j * P1.tryConsume opts from by ring] at h'
    exact h'

theorem P1.tryPlace_fallback (cfg : Config) (s : RandStream) (opts : P1.Opts)
    (k nextBoard : ℕ) (placed : List Img) (node : Img)
    (hnone : P1.tryLoop cfg s opts nextBoard placed node (P1.drawW cfg s k)
      (P1.drawH cfg s k) 0 (k + 2) P1.maxTries = none) :
    P1.tryPlace cfg s opts k nextBoard placed node =
      ({ node with
         x := (nextBoard : ℚ) * (cfg.W : ℚ) + 2, y := 2,
         w := min ((cfg.W : ℚ) * 0.65) ((cfg.W : ℚ) - cfg.spacing * 2),
         h := min ((⌊(cfg.W : ℚ) * 0.65 * 0.75⌋ : ℤ) : ℚ) ((cfg.H : ℚ) - cfg.spacing * 2) },
       (nextBoard + 1) % cfg.boards,
       placed ++ [{ node with
         x := (nextBoard : ℚ) * (cfg.W : ℚ) + 2, y := 2,
         w := min ((cfg.W : ℚ) * 0.65) ((cfg.W : ℚ) - cfg.spacing * 2),
         h := min ((⌊(cfg.W : ℚ) * 0.65 * 0.75⌋ : ℤ) : ℚ) ((cfg.H : ℚ) - cfg.spacing * 2) }],
       k + 2 + P1.tryConsume opts * P1.maxTries) := by
  rw [P1.tryPlace, hnone]

/-- Claim C3 (amended): in the part_001 random scatter, an item whose 400-try
random budget is exhausted (every candidate overlapped) is still placed —
`tryPlace` returns, with the item's own id — by clamping it into the next
round-robin board `nextBoard` at the fixed near-origin offset
`(boardStart + 2, 2)`, appending it to the placed list with *no* overlap
check (so this fallback may overlap, as the witness instance does), and
advancing the round-robin counter.  (The App.jsx variant's exhaustion
fallback behaves differently — see the counterexample.) -/
theorem claim_C3 (cfg : Config) (s : RandStream) (opts : P1.Opts) (k nextBoard : ℕ)
    (placed : List Img) (node : Img)
    (hnone : P1.tryLoop cfg s opts nextBoard placed node (P1.drawW cfg s k)
      (P1.drawH cfg s k) 0 (k + 2) P1.maxTries = none) :
    (P1.tryPlace cfg s opts k nextBoard placed node).1.x =
      (nextBoard : ℚ) * (cfg.W : ℚ) + 2 ∧
    (P1.tryPlace cfg s opts k nextBoard placed node).1.y = 2 ∧
    (P1.tryPlace cfg s opts k nextBoard placed node).1.id = node.id ∧
    (P1.tryPlace cfg s opts k nextBoard placed node).2.1 = (nextBoard + 1) % cfg.boards ∧
    (P1.tryPlace cfg s opts k nextBoard placed node).2.2.1 =
      placed ++ [(P1.tryPlace cfg s opts k nextBoard placed node).1] := by
  rw [P1.tryPlace_fallback cfg s opts k nextBoard placed node hnone]
  exact ⟨rfl, rfl, rfl, rfl, rfl⟩

set_option maxHeartbeats 1600000 in
/-- Claim C3 witness: one 200×200 board (spacing 0) fully covered by an
already-placed item; with the all-zero stream every random candidate for a
new 10×10 item overlaps, the budget exhausts, and `tryPlace` clamps the item
to the near-origin offset (2, 2) of round-robin board 0, keeping its id "n" —
and this fallback placement does overlap the placed item. -/
theorem claim_C3_witness :
    (P1.tryPlace ⟨1, 200, 200, 0⟩ (fun _ => 0) ⟨true, true⟩ 0 0
        [{ id := "a", x := 0, y := 0, w := 200, h := 200 }]
        { id := "n", x := 1, y := 1, w := 10, h := 10 }).1.x = 2 ∧
    (P1.tryPlace ⟨1, 200, 200, 0⟩ (fun _ => 0) ⟨true, true⟩ 0 0
        [{ id := "a", x := 0, y := 0, w := 200, h := 200 }]
        { id := "n", x := 1, y := 1, w := 10, h := 10 }).1.y = 2 ∧
    (P1.tryPlace ⟨1, 200, 200, 0⟩ (fun _ => 0) ⟨true, true⟩ 0 0
        [{ id := "a", x := 0, y := 0, w := 200, h := 200 }]
        { id := "n", x := 1, y := 1, w := 10, h := 10 }).1.id = "n" ∧
    (P1.tryPlace ⟨1, 200, 200, 0⟩ (fun _ => 0) ⟨true, true⟩ 0 0
        [{ id := "a", x := 0, y := 0, w := 200, h := 200 }]
        { id := "n", x := 1, y := 1, w := 10, h := 10 }).2.1 = 0 ∧
    rectsOverlapWithMargin
      (P1.tryPlace ⟨1, 200, 200, 0⟩ (fun _ => 0) ⟨true, true⟩ 0 0
        [{ id := "a", x := 0, y := 0, w := 200, h := 200 }]
        { id := "n", x := 1, y := 1, w := 10, h := 10 }).1
      { id := "a", x := 0, y := 0, w := 200, h := 200 } 0 = true := by
  have hnone : P1.tryLoop ⟨1, 200, 200, 0⟩ (fun _ => 0) ⟨true, true⟩ 0
      [{ id := "a", x := 0, y := 0, w := 200, h := 200 }]
      { id := "n", x := 1, y := 1, w := 10, h := 10 }
      (P1.drawW ⟨1, 200, 200, 0⟩ (fun _ => 0) 0) (P1.drawH ⟨1, 200, 200, 0⟩ (fun _ => 0) 0)
      0 (0 + 2) P1.maxTries = none := by
    refine P1.tryLoop_none _ _ _ _ _ _ _ _ P1.maxTries 0 (0 + 2) ?_
    intro j _
    have hcand : P1.tryCand ⟨1, 200, 200, 0⟩ (fun _ => 0) ⟨true, true⟩ 0
        { id := "n", x := 1, y := 1, w := 10, h := 10 }
        (P1.drawW ⟨1, 200, 200, 0⟩ (fun _ => 0) 0) (P1.drawH ⟨1, 200, 200, 0⟩ (fun _ => 0) 0)
        (0 + j) (0 + 2 + j * P1.tryConsume ⟨true, true⟩) =
        { id := "n", x := 0, y := 0, w := 50, h := 30 } := by
      simp only [P1.tryCand, P1.tryBoardIndex, P1.drawW, P1.drawH]
      norm_num [Nat.mod_one]
    rw [hcand]
    simp only [overlapsAny, List.any_cons, List.any_nil, rectsOverlapWithMargin]
    norm_num
  obtain ⟨h1, h2, h3, h4, _⟩ := claim_C3 ⟨1, 200, 200, 0⟩ (fun _ => 0) ⟨true, true⟩ 0 0
    [{ id := "a", x := 0, y := 0, w := 200, h := 200 }]
    { id := "n", x := 1, y := 1, w := 10, h := 10 } hnone
  refine ⟨by simpa using h1, h2, h3, by simpa using h4, ?_⟩
  rw [P1.tryPlace_fallback _ _ _ _ _ _ _ hnone]
  simp only [rectsOverlapWithMargin]
  norm_num

theorem App.attemptPlace_rand_some (cfg : Config) (s : RandStream) (k : ℕ)
    (placed : List Img) (node : Img) (c : Img) (next : ℕ)
    (h : App.randPhase cfg s k placed node = some (c, next)) :
    App.attemptPlace cfg s k placed node = (c, placed ++ [c], next) := by
  rw [App.attemptPlace, h]

theorem App.attemptPlace_fallback_dup (cfg : Config) (s : RandStream) (k : ℕ)
    (placed : List Img) (node : Img)
    (h1 : App.randPhase cfg s k placed node = none)
    (h2 : App.gridScan cfg placed node = none) :
    App.attemptPlace cfg s k placed node =
      ((placed.getLast?).getD node, placed, k + 3 * App.maxTries) := by
  rw [App.attemptPlace, h1, h2]

set_option maxHeartbeats 1600000 in
theorem App.dupScenario (s : RandStream) (hs : ∀ i, 0 ≤ s i ∧ s i < 1) :
    App.randomiseLayout ⟨1, 200, 200, 0⟩ s
      [{ id := "a", x := 40, y := 40, w := 200, h := 200 },
       { id := "b", x := 40, y := 40, w := 200, h := 200 }] =
      [{ id := "a", x := 0, y := 0, w := 200, h := 200 },
       { id := "a", x := 0, y := 0, w := 200, h := 200 }] := by
  have hfl : ∀ i : ℕ, ⌊s i⌋ = 0 := fun i =>
    Int.floor_eq_zero_iff.mpr (Set.mem_Ico.mpr ⟨(hs i).1, (hs i).2⟩)
  have hcA : ∀ (k t : ℕ) (N : Img), N.w = 200 → N.h = 200 →
      App.candAt ⟨1, 200, 200, 0⟩ s k N t = { N with x := 0, y := 0 } := by
    intro k t N hw hh
    simp only [App.candAt, rng, hw, hh]
    norm_num [hfl]
  have hrA : App.randPhase ⟨1, 200, 200, 0⟩ s 0 []
      { id := "a", x := 40, y := 40, w := 200, h := 200 } =
      some ({ id := "a", x := 0, y := 0, w := 200, h := 200 }, 3) := by
    rw [App.randPhase, show App.maxTries = 399 + 1 from rfl,
      App.randLoop_succ_accept _ _ _ _ _ _ _ (by rw [hcA 0 0 _ rfl rfl]; rfl),
      hcA 0 0 _ rfl rfl]
  have haA : App.attemptPlace ⟨1, 200, 200, 0⟩ s 0 []
      { id := "a", x := 40, y := 40, w := 200, h := 200 } =
      ({ id := "a", x := 0, y := 0, w := 200, h := 200 },
       [{ id := "a", x := 0, y := 0, w := 200, h := 200 }], 3) := by
    rw [App.attemptPlace_rand_some _ _ _ _ _ _ _ hrA, List.nil_append]
  have hrB : App.randPhase ⟨1, 200, 200, 0⟩ s 3
      [{ id := "a", x := 0, y := 0, w := 200, h := 200 }]
      { id := "b", x := 40, y := 40, w := 200, h := 200 } = none := by
    rw [App.randPhase]
    refine App.randLoop_none _ _ _ _ _ _ _ ?_
    intro u _ _
    rw [hcA 3 u _ rfl rfl]
    simp only [overlapsAny, List.any_cons, List.any_nil, rectsOverlapWithMargin]
    norm_num
  have hgB : App.gridScan ⟨1, 200, 200, 0⟩
      [{ id := "a", x := 0, y := 0, w := 200, h := 200 }]
      { id := "b", x := 40, y := 40, w := 200, h := 200 } = none := by
    have hcands : App.gridCands ⟨1, 200, 200, 0⟩
        { id := "b", x := 40, y := 40, w := 200, h := 200 } =
        [{ id := "b", x := 0, y := 0, w := 200, h := 200 }] := by
      simp only [App.gridCands, App.gridXs, App.gridYs, App.step]
      norm_num [List.range_succ, List.range_zero, List.flatMap_cons, List.flatMap_nil,
        List.map_cons, List.map_nil, Function.comp]
    rw [App.gridScan, hcands]
    rw [List.find?_cons_of_neg, List.find?_nil]
    simp only [overlapsAny, List.any_cons, List.any_nil, rectsOverlapWithMargin]
    norm_num
  have haB : App.attemptPlace ⟨1, 200, 200, 0⟩ s 3
      [{ id := "a", x := 0, y := 0, w := 200, h := 200 }]
      { id := "b", x := 40, y := 40, w := 200, h := 200 } =
      ({ id := "a", x := 0, y := 0, w := 200, h := 200 },
       [{ id := "a", x := 0, y := 0, w := 200, h := 200 }], 3 + 3 * App.maxTries) := by
    rw [App.attemptPlace_fallback_dup _ _ _ _ _ hrB hgB]
    simp
  rw [App.randomiseLayout]
  rw [App.randomiseGo, haA]
  rw [App.randomiseGo, haB]
  rw [App.randomiseGo]

/-- Claim C10: on one 200×200 board (spacing 0) with two 200×200 items "a"
and "b", for every in-range random stream item "a" is placed at (0, 0), item
"b" exhausts both the 400-try random budget and the grid scan, and
`attemptPlace` returns the most recently placed item itself — so the scatter
output carries id "a" twice and no "b"; the normalizing setter's
de-duplication then removes the copy and the operation returns 1 item out of
the 2 it was given. -/
theorem claim_C10 (s : RandStream) (hs : ∀ i, 0 ≤ s i ∧ s i < 1) :
    (App.randomiseLayout ⟨1, 200, 200, 0⟩ s
        [{ id := "a", x := 40, y := 40, w := 200, h := 200 },
         { id := "b", x := 40, y := 40, w := 200, h := 200 }]).map Img.id = ["a", "a"] ∧
    (App.normalizeImages ⟨1, 200, 200, 0⟩ (App.randomiseLayout ⟨1, 200, 200, 0⟩ s
        [{ id := "a", x := 40, y := 40, w := 200, h := 200 },
         { id := "b", x := 40, y := 40, w := 200, h := 200 }])).length = 1 ∧
    ([{ id := "a", x := 40, y := 40, w := 200, h := 200 },
      { id := "b", x := 40, y := 40, w := 200, h := 200 }] : List Img).length = 2 := by
  rw [App.dupScenario s hs]
  refine ⟨rfl, ?_, rfl⟩
  rw [App.normalizeImages, List.length_map]
  have hdedupe : App.dedupeById
      [{ id := "a", x := 0, y := 0, w := 200, h := 200 },
       { id := "a", x := 0, y := 0, w := 200, h := 200 }] [] =
      [{ id := "a", x := 0, y := 0, w := 200, h := 200 }] := by
    simp [App.dedupeById]
  rw [hdedupe]
  rfl

/-- Claim C10 witness: the statement instantiated at the all-zero stream. -/
theorem claim_C10_witness :
    (App.randomiseLayout ⟨1, 200, 200, 0⟩ (fun _ => 0)
        [{ id := "a", x := 40, y := 40, w := 200, h := 200 },
         { id := "b", x := 40, y := 40, w := 200, h := 200 }]).map Img.id = ["a", "a"] ∧
    (App.normalizeImages ⟨1, 200, 200, 0⟩ (App.randomiseLayout ⟨1, 200, 200, 0⟩ (fun _ => 0)
        [{ id := "a", x := 40, y := 40, w := 200, h := 200 },
         { id := "b", x := 40, y := 40, w := 200, h := 200 }])).length = 1 ∧
    ([{ id := "a", x := 40, y := 40, w := 200, h := 200 },
      { id := "b", x := 40, y := 40, w := 200, h := 200 }] : List Img).length = 2 :=
  claim_C10 (fun _ => 0) (fun i => by norm_num)

/-- Claim C3 counterexample: in App.jsx, when the random budget and the grid
scan are both exhausted for item "b" (all-zero stream, one fully covered
200×200 board), the operation does not clamp item "b" into the next
round-robin board at a near-origin offset — it returns a copy of the
already-placed item "a" instead, and "b" appears nowhere in the output. -/
theorem claim_C3_counterexample :
    (App.randomiseLayout ⟨1, 200, 200, 0⟩ (fun _ => 0)
        [{ id := "a", x := 40, y := 40, w := 200, h := 200 },
         { id := "b", x := 40, y := 40, w := 200, h := 200 }]).map Img.id = ["a", "a"] ∧
    ¬ ("b" ∈ (App.randomiseLayout ⟨1, 200, 200, 0⟩ (fun _ => 0)
        [{ id := "a", x := 40, y := 40, w := 200, h := 200 },
         { id := "b", x := 40, y := 40, w := 200, h := 200 }]).map Img.id) := by
  rw [App.dupScenario (fun _ => 0) (fun i => by norm_num)]
  constructor
  · rfl
  · simp

theorem App.clampItem_w (cfg : Config) (n : Img) :
    (App.clampItem cfg n).w = App.clamp n.w 20 ((cfg.boards : ℚ) * (cfg.W : ℚ)) := by
  simp [App.clampItem]

theorem App.clampItem_h (cfg : Config) (n : Img) :
    (App.clampItem cfg n).h = App.clamp n.h 20 (cfg.H : ℚ) := by
  simp [App.clampItem]

theorem App.clampItem_y (cfg : Config) (n : Img) :
    (App.clampItem cfg n).y = App.clamp n.y 0 ((cfg.H : ℚ) - App.clamp n.h 20 (cfg.H : ℚ)) := by
  simp [App.clampItem]

/-- Claim C9: every image-list update runs through the normalizing setter,
whose pipe `normalizeImages` guarantees (for any valid configuration
`0 < W`, `1 ≤ boards`, `20 ≤ H`, and any input list): pairwise-distinct
nonempty ids (falsy-id items and later duplicates removed), every width and
height at least 20, every `y` within `[0, boardH − h]`, and every `x` inside
the x-range of the board implied by `clamp(floor(x / boardW), 0, boards−1)`. -/
theorem claim_C9 (cfg : Config) (hW : 0 < cfg.W) (hb : 1 ≤ cfg.boards) (hH : 20 ≤ cfg.H)
    (arr : List Img) :
    ((App.normalizeImages cfg arr).map Img.id).Pairwise (· ≠ ·) ∧
    (∀ n ∈ App.normalizeImages cfg arr, n.id ≠ "") ∧
    (∀ n ∈ App.normalizeImages cfg arr, 20 ≤ n.w ∧ 20 ≤ n.h) ∧
    (∀ n ∈ App.normalizeImages cfg arr, 0 ≤ n.y ∧ n.y ≤ (cfg.H : ℚ) - n.h) ∧
    (∀ n ∈ App.normalizeImages cfg arr,
      (App.boardIdxOf cfg n.x : ℚ) * (cfg.W : ℚ) ≤ n.x ∧
      n.x < ((App.boardIdxOf cfg n.x : ℚ) + 1) * (cfg.W : ℚ)) := by
  have hHq : (20 : ℚ) ≤ (cfg.H : ℚ) := by exact_mod_cast hH
  refine ⟨?_, ?_, ?_, ?_, ?_⟩
  · rw [App.normalizeImages, List.map_map]
    rw [List.pairwise_map]
    refine (App.dedupeById_nodup arr []).imp ?_
    intro a b hab
    simpa [Function.comp, App.clampItem_id] using hab
  · intro n hn
    rw [App.normalizeImages] at hn
    obtain ⟨m, hm, rfl⟩ := List.mem_map.mp hn
    rw [App.clampItem_id]
    exact (App.dedupeById_mem_facts arr [] m hm).1
  · intro n hn
    rw [App.normalizeImages] at hn
    obtain ⟨m, _, rfl⟩ := List.mem_map.mp hn
    rw [App.clampItem_w, App.clampItem_h]
    exact ⟨App.le_clamp _ _ _, App.le_clamp _ _ _⟩
  · intro n hn
    rw [App.normalizeImages] at hn
    obtain ⟨m, _, rfl⟩ := List.mem_map.mp hn
    rw [App.clampItem_y, App.clampItem_h]
    have hhub : App.clamp m.h 20 (cfg.H : ℚ) ≤ (cfg.H : ℚ) :=
      (App.clamp_le_max _ _ _).trans (by rw [max_eq_right hHq])
    exact ⟨App.le_clamp _ _ _, App.clamp_le _ _ _ (by linarith)⟩
  · intro n hn
    rw [App.normalizeImages] at hn
    obtain ⟨m, _, rfl⟩ := List.mem_map.mp hn
    obtain ⟨h1, h2⟩ := App.clampItem_x_bounds cfg hW m
    rw [App.boardIdxOf_clampItem cfg hW hb m]
    exact ⟨h1, h2⟩

/-- Claim C9 witness: the guarantees evaluated on a 2×100-board spread of
height 200 for the item (x 150, y −7, w 10, h 999), normalized to
(x 150, y 0, w 20, h 200) on board 1. -/
theorem claim_C9_witness :
    ((App.normalizeImages ⟨2, 100, 200, 0⟩
        [{ id := "a", x := 150, y := -7, w := 10, h := 999 }]).map Img.id).Pairwise (· ≠ ·) ∧
    (0 : ℚ) ≤ ({ id := "a", x := 150, y := 0, w := 20, h := 200 } : Img).y ∧
    ({ id := "a", x := 150, y := 0, w := 20, h := 200 } : Img).y ≤
      (200 : ℚ) - ({ id := "a", x := 150, y := 0, w := 20, h := 200 } : Img).h ∧
    (App.boardIdxOf ⟨2, 100, 200, 0⟩ 150 : ℚ) * 100 ≤ 150 ∧
    (150 : ℚ) < ((App.boardIdxOf ⟨2, 100, 200, 0⟩ 150 : ℚ) + 1) * 100 := by
  obtain ⟨h1, -, -, h4, h5⟩ := claim_C9 ⟨2, 100, 200, 0⟩ (by norm_num) (by norm_num)
    (by norm_num) [{ id := "a", x := 150, y := -7, w := 10, h := 999 }]
  have heval : App.normalizeImages ⟨2, 100, 200, 0⟩
      [{ id := "a", x := 150, y := -7, w := 10, h := 999 }] =
      [{ id := "a", x := 150, y := 0, w := 20, h := 200 }] := by
    have hdd : App.dedupeById [{ id := "a", x := 150, y := -7, w := 10, h := 999 }] [] =
        [{ id := "a", x := 150, y := -7, w := 10, h := 999 }] := by
      simp [App.dedupeById]
    rw [App.normalizeImages, hdd, List.map_cons, List.map_nil]
    simp only [App.clampItem, App.boardIdxOf, App.clamp, App.clampZ]
    norm_num
  have hmem : ({ id := "a", x := 150, y := 0, w := 20, h := 200 } : Img) ∈
      App.normalizeImages ⟨2, 100, 200, 0⟩
        [{ id := "a", x := 150, y := -7, w := 10, h := 999 }] := by
    rw [heval]
    exact List.mem_cons_self _ _
  obtain ⟨hy1, hy2⟩ := h4 _ hmem
  obtain ⟨hx1, hx2⟩ := h5 _ hmem
  exact ⟨h1, hy1, hy2, hx1, hx2⟩

theorem App.argminTrack_mem (track : ℕ → ℕ → ℚ) :
    ∀ (l : List (ℕ × ℕ)) (best : ℕ × ℕ),
    App.argminTrack track l best = best ∨ App.argminTrack track l best ∈ l := by
  intro l
  induction l with
  | nil => intro best; exact Or.inl rfl
  | cons p rest ih =>
    intro best
    by_cases hc : track p.1 p.2 < track best.1 best.2
    · rw [App.argminTrack, if_pos hc]
      rcases ih p with h | h
      · exact Or.inr (by rw [h]; exact List.mem_cons_self _ _)
      · exact Or.inr (List.mem_cons_of_mem _ h)
    · rw [App.argminTrack, if_neg hc]
      rcases ih best with h | h
      · exact Or.inl h
      · exact Or.inr (List.mem_cons_of_mem _ h)

theorem App.argminTrack_le (track : ℕ → ℕ → ℚ) :
    ∀ (l : List (ℕ × ℕ)) (best : ℕ × ℕ),
    track (App.argminTrack track l best).1 (App.argminTrack track l best).2 ≤
      track best.1 best.2 ∧
    ∀ p ∈ l, track (App.argminTrack track l best).1 (App.argminTrack track l best).2 ≤
      track p.1 p.2 := by
  intro l
  induction l with
  | nil => intro best; exact ⟨le_rfl, by simp⟩
  | cons p rest ih =>
    intro best
    by_cases hc : track p.1 p.2 < track best.1 best.2
    · rw [App.argminTrack, if_pos hc]
      obtain ⟨h1, h2⟩ := ih p
      refine ⟨h1.trans hc.le, fun q hq => ?_⟩
      rcases List.mem_cons.mp hq with rfl | hq
      · exact h1
      · exact h2 q hq
    · rw [App.argminTrack, if_neg hc]
      obtain ⟨h1, h2⟩ := ih best
      push_neg at hc
      refine ⟨h1, fun q hq => ?_⟩
      rcases List.mem_cons.mp hq with rfl | hq
      · exact h1.trans hc
      · exact h2 q hq

theorem App.seamlessBest_mem (cfg : Config) (track : ℕ → ℕ → ℚ) (p : ℕ × ℕ)
    (rest : List (ℕ × ℕ)) (hpairs : App.colPairs cfg = p :: rest) :
    App.seamlessBest cfg track ∈ App.colPairs cfg := by
  rw [App.seamlessBest, hpairs, List.tail_cons, List.headD_cons]
  rcases App.argminTrack_mem track rest p with h | h
  · rw [h]; exact List.mem_cons_self _ _
  · exact List.mem_cons_of_mem _ h

theorem App.seamlessBest_min (cfg : Config) (track : ℕ → ℕ → ℚ) (p : ℕ × ℕ)
    (rest : List (ℕ × ℕ)) (hpairs : App.colPairs cfg = p :: rest) :
    ∀ q ∈ App.colPairs cfg,
      track (App.seamlessBest cfg track).1 (App.seamlessBest cfg track).2 ≤
        track q.1 q.2 := by
  rw [App.seamlessBest, hpairs, List.tail_cons, List.headD_cons]
  obtain ⟨h1, h2⟩ := App.argminTrack_le track rest p
  intro q hq
  rcases List.mem_cons.mp hq with rfl | hq
  · exact h1
  · exact h2 q hq

theorem App.colPairs_ne_nil (cfg : Config) (hb : 1 ≤ cfg.boards) :
    ∃ p rest, App.colPairs cfg = p :: rest := by
  have hmem : ((0 : ℕ), (0 : ℕ)) ∈ App.colPairs cfg := by
    rw [App.colPairs, List.mem_flatMap]
    refine ⟨0, ?_, ?_⟩
    · rw [List.mem_range]; omega
    · rw [List.mem_map]
      refine ⟨0, ?_, rfl⟩
      rw [List.mem_range]
      have h2 : 2 ≤ App.seamlessCols cfg := le_max_left _ _
      omega
  obtain ⟨p, rest, h⟩ := List.exists_cons_of_ne_nil (List.ne_nil_of_mem hmem)
  exact ⟨p, rest, h⟩

theorem App.seamlessStep_bc (cfg : Config) (track : ℕ → ℕ → ℚ) (u : ℚ) (n : Img) :
    (App.seamlessStep cfg track u n).1.2 = App.seamlessBest cfg track := by
  simp [App.seamlessStep]

theorem App.seamlessStep_y (cfg : Config) (track : ℕ → ℕ → ℚ) (u : ℚ) (n : Img) :
    (App.seamlessStep cfg track u n).1.1.y =
      ((⌊track (App.seamlessStep cfg track u n).1.2.1
          (App.seamlessStep cfg track u n).1.2.2⌋ : ℤ) : ℚ) := by
  simp [App.seamlessStep]

theorem App.seamlessStep_track (cfg : Config) (track : ℕ → ℕ → ℚ) (u : ℚ) (n : Img)
    (b2 c2 : ℕ) :
    (App.seamlessStep cfg track u n).2 b2 c2 =
      track b2 c2 +
        (if b2 = (App.seamlessStep cfg track u n).1.2.1 ∧
            c2 = (App.seamlessStep cfg track u n).1.2.2
         then (App.seamlessStep cfg track u n).1.1.h else 0) := by
  simp only [App.seamlessStep]
  split_ifs with h
  · rw [h.1, h.2]
    ring
  · ring

theorem App.colHeightSum_cons (e : Img × ℕ × ℕ) (run : List (Img × ℕ × ℕ)) (bc : ℕ × ℕ) :
    App.colHeightSum (e :: run) bc =
      (if e.2 = bc then e.1.h else 0) + App.colHeightSum run bc := by
  rw [App.colHeightSum, App.colHeightSum]
  by_cases h : e.2 = bc
  · rw [List.filter_cons_of_pos (by simpa using h), List.map_cons, List.sum_cons, if_pos h]
  · rw [List.filter_cons_of_neg (by simpa using h), if_neg h, zero_add]

theorem App.trackStep_eq (cfg : Config) (track : ℕ → ℕ → ℚ) (u : ℚ) (n : Img)
    (X : List (Img × ℕ × ℕ)) (bc : ℕ × ℕ) :
    (App.seamlessStep cfg track u n).2 bc.1 bc.2 + App.colHeightSum X bc =
      track bc.1 bc.2 + App.colHeightSum ((App.seamlessStep cfg track u n).1 :: X) bc := by
  rw [App.seamlessStep_track, App.colHeightSum_cons]
  by_cases h : (App.seamlessStep cfg track u n).1.2 = bc
  · rw [if_pos ⟨(Prod.ext_iff.mp h).1.symm, (Prod.ext_iff.mp h).2.symm⟩, if_pos h]
    ring
  · rw [if_neg (fun hc => h (Prod.ext_iff.mpr ⟨hc.1.symm, hc.2.symm⟩)), if_neg h]
    ring

theorem listGetZero {α : Type} (a : α) (l : List α) (h : 0 < (a :: l).length) :
    (a :: l).get ⟨0, h⟩ = a := rfl

theorem listGetSucc {α : Type} (a : α) (l : List α) (j : ℕ) (h : j + 1 < (a :: l).length) :
    (a :: l).get ⟨j + 1, h⟩ = l.get ⟨j, by simpa using h⟩ := rfl

theorem App.seamlessRun_invariant (cfg : Config) (s : RandStream) (hb : 1 ≤ cfg.boards) :
    ∀ (l : List Img) (k : ℕ) (track : ℕ → ℕ → ℚ) (i : ℕ)
      (hi : i < (App.seamlessRun cfg s k track l).length),
      ((App.seamlessRun cfg s k track l).get ⟨i, hi⟩).1.y =
        ((⌊track ((App.seamlessRun cfg s k track l).get ⟨i, hi⟩).2.1
              ((App.seamlessRun cfg s k track l).get ⟨i, hi⟩).2.2 +
            App.colHeightSum ((App.seamlessRun cfg s k track l).take i)
              ((App.seamlessRun cfg s k track l).get ⟨i, hi⟩).2⌋ : ℤ) : ℚ) ∧
      ((App.seamlessRun cfg s k track l).get ⟨i, hi⟩).2 ∈ App.colPairs cfg ∧
      ∀ q ∈ App.colPairs cfg,
        track ((App.seamlessRun cfg s k track l).get ⟨i, hi⟩).2.1
            ((App.seamlessRun cfg s k track l).get ⟨i, hi⟩).2.2 +
          App.colHeightSum ((App.seamlessRun cfg s k track l).take i)
            ((App.seamlessRun cfg s k track l).get ⟨i, hi⟩).2 ≤
        track q.1 q.2 +
          App.colHeightSum ((App.seamlessRun cfg s k track l).take i) q := by
  intro l
  induction l with
  | nil =>
    intro k track i hi
    simp [App.seamlessRun] at hi
  | cons n rest ih =>
    intro k track i hi
    obtain ⟨p, prs, hpairs⟩ := App.colPairs_ne_nil cfg hb
    match i with
    | 0 =>
      simp only [App.seamlessRun, listGetZero, List.take_zero]
      refine ⟨?_, ?_, ?_⟩
      · rw [App.seamlessStep_y]
        simp [App.colHeightSum]
      · rw [App.seamlessStep_bc]
        exact App.seamlessBest_mem cfg track p prs hpairs
      · intro q hq
        simp only [App.colHeightSum, List.filter_nil, List.map_nil, List.sum_nil, add_zero]
        rw [App.seamlessStep_bc]
        exact App.seamlessBest_min cfg track p prs hpairs q hq
    | j + 1 =>
      have hi' : j < (App.seamlessRun cfg s (k + 1)
          (App.seamlessStep cfg track (s k) n).2 rest).length := by
        have := hi
        simp only [App.seamlessRun, List.length_cons] at this
        omega
      obtain ⟨hy, hmem, hmin⟩ := ih (k + 1) (App.seamlessStep cfg track (s k) n).2 j hi'
      simp only [App.seamlessRun, listGetSucc, List.take_succ_cons]
      refine ⟨?_, hmem, ?_⟩
      · rw [hy, ← App.trackStep_eq]
      · intro q hq
        rw [← App.trackStep_eq, ← App.trackStep_eq]
        exact hmin q hq

/-- Claim C6 (amended): in `editorialSeamless` (gutter 0) every item is
assigned to the (board, column) pair whose running height — the sum of the
heights of items already placed in that column — is minimal over the
row-major scan, and its `y` is `Math.floor` of that running height rather
than the exact sum (exact only when the sum is an integer; the
counterexample exhibits the floored fractional case). -/
theorem claim_C6 (cfg : Config) (hb : 1 ≤ cfg.boards) (s : RandStream) (l : List Img)
    (i : ℕ) (hi : i < (App.seamlessRun cfg s 0 (fun _ _ => 0) l).length) :
    App.editorialSeamless cfg s l =
      (App.seamlessRun cfg s 0 (fun _ _ => 0) l).map (fun e => e.1) ∧
    ((App.seamlessRun cfg s 0 (fun _ _ => 0) l).get ⟨i, hi⟩).1.y =
      ((⌊App.colHeightSum ((App.seamlessRun cfg s 0 (fun _ _ => 0) l).take i)
          ((App.seamlessRun cfg s 0 (fun _ _ => 0) l).get ⟨i, hi⟩).2⌋ : ℤ) : ℚ) ∧
    ((App.seamlessRun cfg s 0 (fun _ _ => 0) l).get ⟨i, hi⟩).2 ∈ App.colPairs cfg ∧
    ∀ q ∈ App.colPairs cfg,
      App.colHeightSum ((App.seamlessRun cfg s 0 (fun _ _ => 0) l).take i)
        ((App.seamlessRun cfg s 0 (fun _ _ => 0) l).get ⟨i, hi⟩).2 ≤
      App.colHeightSum ((App.seamlessRun cfg s 0 (fun _ _ => 0) l).take i) q := by
  obtain ⟨hy, hmem, hmin⟩ := App.seamlessRun_invariant cfg s hb l 0 (fun _ _ => 0) i hi
  refine ⟨rfl, ?_, hmem, ?_⟩
  · simpa using hy
  · intro q hq
    simpa using hmin q hq

/-- Claim C6 witness: first item of a one-item seamless run on a single
board: its `y` is the floor of the empty running-height sum and its column
is a valid (board, column) pair. -/
theorem claim_C6_witness :
    ((App.seamlessRun ⟨1, 1080, 1320, 24⟩ (fun _ => 0) 0 (fun _ _ => 0)
        [{ id := "a", x := 0, y := 0, w := 10, h := 10 }]).get ⟨0, by decide⟩).1.y =
      ((⌊App.colHeightSum ((App.seamlessRun ⟨1, 1080, 1320, 24⟩ (fun _ => 0) 0 (fun _ _ => 0)
            [{ id := "a", x := 0, y := 0, w := 10, h := 10 }]).take 0)
          ((App.seamlessRun ⟨1, 1080, 1320, 24⟩ (fun _ => 0) 0 (fun _ _ => 0)
            [{ id := "a", x := 0, y := 0, w := 10, h := 10 }]).get ⟨0, by decide⟩).2⌋ : ℤ) : ℚ) ∧
    ((App.seamlessRun ⟨1, 1080, 1320, 24⟩ (fun _ => 0) 0 (fun _ _ => 0)
        [{ id := "a", x := 0, y := 0, w := 10, h := 10 }]).get ⟨0, by decide⟩).2 ∈
      App.colPairs ⟨1, 1080, 1320, 24⟩ :=
  ⟨(claim_C6 ⟨1, 1080, 1320, 24⟩ (by norm_num) (fun _ => 0)
      [{ id := "a", x := 0, y := 0, w := 10, h := 10 }] 0 (by decide)).2.1,
   (claim_C6 ⟨1, 1080, 1320, 24⟩ (by norm_num) (fun _ => 0)
      [{ id := "a", x := 0, y := 0, w := 10, h := 10 }] 0 (by decide)).2.2.1⟩

set_option maxHeartbeats 1600000 in
/-- Claim C6 counterexample: on one 1080-wide board (two 540-wide columns),
with draws giving heights 329.4 and 396.9 to the first two items, the third
item goes back to column (0, 0) and is placed at y = 329 = ⌊329.4⌋, not at
the exact sum 329.4 = 1647/5 of the heights previously placed in that
column — so "item N's y equals exactly the sum of heights of items 1..N−1
in its column" is false as stated. -/
theorem claim_C6_counterexample :
    (App.seamlessRun ⟨1, 1080, 1320, 24⟩
        (fun i => if i = 0 then 1/15 else if i = 1 then 9/10 else 0) 0 (fun _ _ => 0)
        [{ id := "a", x := 0, y := 0, w := 10, h := 10 },
         { id := "b", x := 0, y := 0, w := 10, h := 10 },
         { id := "c", x := 0, y := 0, w := 10, h := 10 }]).map
      (fun e => (e.1.y, e.1.h, e.2)) =
      [((0 : ℚ), (1647 / 5 : ℚ), ((0 : ℕ), (0 : ℕ))), (0, 3969 / 10, (0, 1)),
       (329, 324, (0, 0))] ∧
    ((329 : ℚ) ≠ 1647 / 5) := by
  constructor
  · have hpairs : App.colPairs ⟨1, 1080, 1320, 24⟩ = [(0, 0), (0, 1)] := by
      simp only [App.colPairs, App.seamlessCols]
      norm_num [List.range_succ, List.range_zero, List.flatMap_cons, List.flatMap_nil,
        List.map_cons, List.map_nil]
    simp only [App.seamlessRun, App.seamlessStep, App.seamlessBest, hpairs, List.tail_cons,
      List.headD_cons, App.argminTrack, App.seamlessColW, App.seamlessCols, rng,
      List.map_cons, List.map_nil]
    norm_num
  · norm_num
